import Mathlib

/-!
# SenML packs: validation, normalization and the CSV codec

A shallow embedding of `senml.go` (`ValidateName`, `Pack.Validate`, `Pack.Normalize`) and of
`codec/codec_csv.go` (`WriteCSV`, `ReadCSV`), with theorems about them.

Conventions of the embedding:

* a Go `string` is a Lean `String`; `len(s) == 0` is `s.length = 0` (both hold exactly for the
  empty string) and `a + b` is `a ++ b`;
* a Go `error` is its message, `nil` is `Except.ok`;
* a pointer field (`*float64`, `*bool`) is an `Option`;
* `float64` is a type parameter `F` with the operations the package calls on it collected in
  `Float64 F`; every theorem holds for whatever these operations are, in particular for IEEE 754;
* `time.Now()` in `Normalize` is the argument `now`.
-/

namespace Senml

deriving instance DecidableEq for Except

/-! ## float64 and strconv -/

/-- The float64 operations and strconv functions called by the package. -/
structure Float64 (F : Type) where
  /-- Conversion of an integer constant, `float64(n)`. -/
  ofInt : Int → F
  /-- The sum `x + y`. -/
  add : F → F → F
  /-- The comparison `x < y`. -/
  lt : F → F → Bool
  /-- The comparison `x == 0`. -/
  isZero : F → Bool
  /-- The call `strconv.ParseFloat(s, 10)`. -/
  parseFloat : String → Except String F
  /-- The call `strconv.FormatFloat(x, 'f', -1, 64)`. -/
  formatFloat : F → String
  /-- The product `x * y`. -/
  mul : F → F → F
  /-- The conversion `int64(x)`. -/
  toInt64 : F → Int
  /-- The verb `%f` of `fmt.Sprintf`. -/
  sprintfF : F → String

/-- The zero value of a `float64` variable. -/
def Float64.zero {F : Type} (lib : Float64 F) : F := lib.ofInt 0

/-! ## Data model (`senml.go`, lines 36-61) -/

/-- One SenML record. -/
structure Record (F : Type) where
  XMLName : Option Bool
  BaseName : String
  BaseTime : F
  BaseUnit : String
  BaseVersion : Int
  Name : String
  Unit : String
  Time : F
  UpdateTime : F
  Value : Option F
  StringValue : String
  DataValue : String
  BoolValue : Option Bool
  Sum : Option F
deriving DecidableEq, Repr

/-- A SenML pack: records in order. -/
abbrev Pack (F : Type) := List (Record F)

/-- The zero value of `Record`, as `make([]Record, n)` fills a slice with. -/
def Record.zeroValue {F : Type} (lib : Float64 F) : Record F :=
  { XMLName := none, BaseName := "", BaseTime := lib.zero, BaseUnit := "", BaseVersion := 0,
    Name := "", Unit := "", Time := lib.zero, UpdateTime := lib.zero, Value := none,
    StringValue := "", DataValue := "", BoolValue := none, Sum := none }

/-! ## Regular expressions, as far as `ValidateName` needs them -/

/-- Regular expressions over characters; `cls` is a bracket class given by its ranges. -/
inductive Regexp where
  | nothing : Regexp
  | empty : Regexp
  | cls (ranges : List (Char × Char)) : Regexp
  | alt (a b : Regexp) : Regexp
  | cat (a b : Regexp) : Regexp
  | star (a : Regexp) : Regexp
deriving Repr

/-- The repetition `a+`. -/
def Regexp.plus (a : Regexp) : Regexp := .cat a (.star a)

/-- Membership of a character in a bracket class. -/
def inClass (ranges : List (Char × Char)) (c : Char) : Bool :=
  ranges.any (fun r => decide (r.1 ≤ c) && decide (c ≤ r.2))

/-- Whether the expression matches the empty string. -/
def Regexp.nullable : Regexp → Bool
  | .nothing => false
  | .empty => true
  | .cls _ => false
  | .alt a b => a.nullable || b.nullable
  | .cat a b => a.nullable && b.nullable
  | .star _ => true

/-- The derivative of an expression by one character. -/
def Regexp.deriv : Regexp → Char → Regexp
  | .nothing, _ => .nothing
  | .empty, _ => .nothing
  | .cls rs, c => if inClass rs c then .empty else .nothing
  | .alt a b, c => .alt (a.deriv c) (b.deriv c)
  | .cat a b, c =>
    if a.nullable then .alt (.cat (a.deriv c) b) (b.deriv c) else .cat (a.deriv c) b
  | .star a, c => .cat (a.deriv c) (.star a)

/-- Whether the expression matches the whole text (the pattern is anchored by `^` and `$`). -/
def Regexp.fullMatch : Regexp → List Char → Bool
  | r, [] => r.nullable
  | r, c :: s => (r.deriv c).fullMatch s

/-- The class `[a-zA-Z0-9]`. -/
def alnumClass : List (Char × Char) := [('a', 'z'), ('A', 'Z'), ('0', '9')]

/-- The class `[a-zA-Z0-9-:./_]`. -/
def nameClass : List (Char × Char) :=
  [('a', 'z'), ('A', 'Z'), ('0', '9'), ('-', '-'), (':', ':'), ('.', '.'), ('/', '/'), ('_', '_')]

/-- The pattern `^[a-zA-Z0-9]+[a-zA-Z0-9-:./_]*$` between its anchors. -/
def validName : Regexp := .cat (Regexp.plus (.cls alnumClass)) (.star (.cls nameClass))

/-- The call `validName.MatchString(name)`. -/
def MatchString (re : Regexp) (name : String) : Bool := re.fullMatch name.data

/-! ## `ValidateName` (`senml.go`, lines 380-393) -/

def errEmptyName : String := "empty name"

def errInvalidName : String :=
  "invalid name: must begin with alphanumeric and contain alphanumeric or one of - : . / _"

/-- ValidateName validates the SenML name. -/
def ValidateName (name : String) : Except String Unit :=
  if name.length = 0 then .error errEmptyName
  else if !MatchString validName name then .error errInvalidName
  else .ok ()

/-! ## `Pack.Validate` (`senml.go`, lines 312-378) -/

def errVersionChange : String := "unallowed version change"

def errTooManyValues : String := "too many values"

def errNoValue : String := "no value or sum"

/-- The loop variables of `Validate`. -/
structure ValidateState where
  bname : String
  bver : Int
deriving DecidableEq, Repr

/-- The check that the version is the same for all records (lines 319-332): the new `bver`,
or the error. -/
def checkVersion {F : Type} (bver : Int) (r : Record F) : Except String Int :=
  if bver = -1 then
    -- set the bver the first time it is seen
    if r.BaseVersion ≠ 0 then .ok r.BaseVersion else .ok bver
  else
    if r.BaseVersion ≠ 0 then
      -- next time a version in seen, check it has not changed
      if r.BaseVersion ≠ bver then .error errVersionChange else .ok bver
    else .ok bver

/-- The variable `valueCount` when it is compared with 1 for the first time (lines 344-356). -/
def valueCount {F : Type} (r : Record F) : Nat :=
  let valueCount := 0
  let valueCount := if r.Value.isSome then valueCount + 1 else valueCount
  let valueCount := if r.BoolValue.isSome then valueCount + 1 else valueCount
  let valueCount := if r.DataValue.length > 0 then valueCount + 1 else valueCount
  let valueCount := if r.StringValue.length > 0 then valueCount + 1 else valueCount
  valueCount

/-- One turn of the loop of `Validate` (lines 317-375): the loop variables after it, or the
error returned. -/
def validateRecord {F : Type} (st : ValidateState) (r : Record F) :
    Except String ValidateState :=
  match checkVersion st.bver r with
  | .error e => .error e
  | .ok bver =>
    let bname := if r.BaseName.length > 0 then r.BaseName else st.bname
    let name := bname ++ r.Name
    match ValidateName name with
    | .error e => .error e
    | .ok _ =>
      let valueCount := valueCount r
      if valueCount > 1 then .error errTooManyValues
      else
        let valueCount := if r.Sum.isSome then valueCount + 1 else valueCount
        if valueCount < 1 then .error errNoValue
        else .ok { bname := bname, bver := bver }

/-- The loop of `Validate` from given loop variables. -/
def validateLoop {F : Type} : ValidateState → List (Record F) → Except String Unit
  | _, [] => .ok ()
  | st, r :: rs =>
    match validateRecord st r with
    | .error e => .error e
    | .ok st' => validateLoop st' rs

/-- Validate tests if SenML is valid. -/
def Validate {F : Type} (p : Pack F) : Except String Unit :=
  validateLoop { bname := "", bver := -1 } p

/-! ## `Pack.Normalize` (`senml.go`, lines 255-310) -/

/-- The condition of lines 265 and 303: one of the four value fields is populated. -/
def hasValue {F : Type} (r : Record F) : Bool :=
  r.Value.isSome || decide (r.StringValue.length > 0) || decide (r.DataValue.length > 0) ||
    r.BoolValue.isSome

/-- The loop variables of the second loop of `Normalize`. -/
structure NormalizeState (F : Type) where
  bname : String
  btime : F
  bunit : String
  ver : Int
  ret : List (Record F)
  numRecords : Nat

/-- The first loop of `Normalize` (lines 263-268). -/
def countRecords {F : Type} (p : Pack F) : Nat :=
  p.foldl (fun totalRecords r => if hasValue r then totalRecords + 1 else totalRecords) 0

/-- The constant `pivot`. -/
def pivot : Int := 268435456

/-- One turn of the second loop of `Normalize` (lines 275-307). The store `ret[numRecords] = r`
is `List.set`; the index is in range there (`foldl_normalizeRecord_ret`). -/
def normalizeRecord {F : Type} (lib : Float64 F) (now : F) (st : NormalizeState F)
    (r : Record F) : NormalizeState F :=
  let btime := if !lib.isZero r.BaseTime then r.BaseTime else st.btime
  let ver := if r.BaseVersion ≠ 0 then r.BaseVersion else st.ver
  let bunit := if r.BaseUnit.length > 0 then r.BaseUnit else st.bunit
  let bname := if r.BaseName.length > 0 then r.BaseName else st.bname
  let r := { r with BaseTime := lib.zero }
  let r := { r with BaseUnit := "" }
  let r := { r with BaseName := "" }
  let r := { r with Name := bname ++ r.Name }
  let r := { r with Time := lib.add btime r.Time }
  let r := if r.Unit.length = 0 then { r with Unit := bunit } else r
  let r := { r with BaseVersion := ver }
  let r := if lib.lt r.Time (lib.ofInt pivot) then { r with Time := lib.add now r.Time } else r
  if hasValue r then
    { bname := bname, btime := btime, bunit := bunit, ver := ver,
      ret := st.ret.set st.numRecords r, numRecords := st.numRecords + 1 }
  else
    { bname := bname, btime := btime, bunit := bunit, ver := ver,
      ret := st.ret, numRecords := st.numRecords }

/-- Normalize removes all the base items adds them to corresponding record fields. It converts
relative times to absolute times. -/
def Normalize {F : Type} (lib : Float64 F) (now : F) (p : Pack F) : Pack F :=
  let totalRecords := countRecords p
  let ret := List.replicate totalRecords (Record.zeroValue lib)
  (p.foldl (normalizeRecord lib now)
    { bname := "", btime := lib.zero, bunit := "", ver := 5, ret := ret, numRecords := 0 }).ret

/-! ## The CSV codec (`codec/codec_csv.go`)

The package hands rows (slices of cells) to `encoding/csv` and gets rows from it; the embedding
works on these rows. A `csv.Reader` is the list of the results of its successive `Read` calls,
`io.EOF` coming after the last one. -/

/-- What a Go call comes to: a value, a returned error, or a run-time panic. -/
inductive Outcome (α : Type) where
  | ok (a : α) : Outcome α
  | error (msg : String) : Outcome α
  | panic (msg : String) : Outcome α
deriving DecidableEq, Repr

/-- Sequencing: an error or a panic ends the function. -/
def Outcome.bind {α β : Type} (x : Outcome α) (f : α → Outcome β) : Outcome β :=
  match x with
  | .ok a => f a
  | .error e => .error e
  | .panic m => .panic m

/-- A library call returning `(value, error)`. -/
def Outcome.ofExcept {α : Type} : Except String α → Outcome α
  | .ok a => .ok a
  | .error e => .error e

/-- Modelled from the spec: the options struct of the codec package, declared in a file that is
not among the sources; `withHeader: bool (CSV only)`, `prettyPrint: bool`. -/
structure Options where
  PrettyPrint : Bool
  WithHeader : Bool
deriving DecidableEq, Repr

/-- Modelled from the spec: the option `WithHeader`, which sets the field of that name. -/
def WithHeader (o : Options) : Options := { o with WithHeader := true }

/-- The options after `for _, opt := range options { opt(o) }`. -/
def applyOptions (options : List (Options → Options)) : Options :=
  options.foldl (fun o opt => opt o) { PrettyPrint := false, WithHeader := false }

/-- CSVHeader is the fixed header to support records with different value types. -/
def CSVHeader : String := "Time,Update Time,Name,Unit,Value,String Value,Boolean Value,Data Value,Sum"

/-- The pieces of a text between the occurrences of a separator character. -/
def splitChars (sep : Char) : List Char → List (List Char)
  | [] => [[]]
  | c :: cs =>
    if c = sep then [] :: splitChars sep cs
    else
      match splitChars sep cs with
      | [] => [[c]]
      | w :: ws => (c :: w) :: ws

/-- The call `strings.Split(s, sep)` for a separator of one character. -/
def stringsSplit (s : String) (sep : Char) : List String :=
  (splitChars sep s.data).map String.mk

/-- The call `strings.Join(elems, sep)`. -/
def stringsJoin (elems : List String) (sep : String) : String :=
  sep.intercalate elems

/-- The first row written under `WithHeader`: `strings.Split(CSVHeader, ",")`. -/
def csvHeaderRow : List String := stringsSplit CSVHeader ','

/-- The verb `%t` of `fmt.Sprintf`. -/
def formatBool (b : Bool) : String := if b then "true" else "false"

/-- The call `strconv.ParseBool(str)`. -/
def parseBool (str : String) : Except String Bool :=
  if str ∈ ["1", "t", "T", "TRUE", "true", "True"] then .ok true
  else if str ∈ ["0", "f", "F", "FALSE", "false", "False"] then .ok false
  else .error ("strconv.ParseBool: parsing \"" ++ str ++ "\": invalid syntax")

/-- The row that `WriteCSV` builds for one record (lines 38-53). -/
def writeRow {F : Type} (lib : Float64 F) (r : Record F) : List String :=
  let row := List.replicate 9 ""
  let row := row.set 0 (lib.formatFloat r.Time)
  let row := row.set 1 (lib.formatFloat r.UpdateTime)
  let row := row.set 2 r.Name
  let row := row.set 3 r.Unit
  let row := match r.Value with
    | some v => row.set 4 (lib.formatFloat v)
    | none => row
  let row := row.set 5 r.StringValue
  let row := match r.BoolValue with
    | some b => row.set 6 (formatBool b)
    | none => row
  let row := row.set 7 r.DataValue
  let row := match r.Sum with
    | some v => row.set 8 (lib.formatFloat v)
    | none => row
  row

/-- The rows that `WriteCSV` hands to the csv writer, in order (lines 17-65), for a writer that
does not fail. The result of `p.Normalize()` on line 35 is not used: the rows are made from `p`. -/
def WriteCSV {F : Type} (lib : Float64 F) (now : F) (p : Pack F)
    (options : List (Options → Options)) : List (List String) :=
  let o := applyOptions options
  let header := if o.WithHeader then [csvHeaderRow] else []
  let _normalized := Normalize lib now p
  header ++ p.map (writeRow lib)

/-- EncodeCSV serializes the SenML pack into CSV: here, into the rows of the CSV text. -/
def EncodeCSV {F : Type} (lib : Float64 F) (now : F) (p : Pack F)
    (options : List (Options → Options)) : List (List String) :=
  WriteCSV lib now p options

/-- The index expression `row[i]`, which panics when `i` is out of range. -/
def cell (row : List String) (i : Nat) : Outcome String :=
  match row[i]? with
  | some c => .ok c
  | none => .panic ("runtime error: index out of range [" ++ toString i ++ "] with length " ++
      toString row.length)

/-- The body of the loop of `ReadCSV` after a row has been read (lines 111-153). -/
def readRecord {F : Type} (lib : Float64 F) (row : List String) : Outcome (Record F) :=
  -- Time
  (cell row 0).bind fun c0 =>
  (Outcome.ofExcept (lib.parseFloat c0)).bind fun time =>
  -- Update Time
  (cell row 8).bind fun c8 =>
  (Outcome.ofExcept (lib.parseFloat c8)).bind fun updateTime =>
  -- Name
  (cell row 1).bind fun name =>
  -- Unit
  (cell row 2).bind fun unit =>
  -- Value
  (cell row 3).bind fun c3 =>
  (if c3 ≠ "" then (Outcome.ofExcept (lib.parseFloat c3)).bind fun value => .ok (some value)
    else .ok none).bind fun value =>
  -- String Value
  (cell row 4).bind fun stringValue =>
  -- Boolean Value
  (cell row 5).bind fun c5 =>
  (if c5 ≠ "" then (Outcome.ofExcept (parseBool c5)).bind fun boolValue => .ok (some boolValue)
    else .ok none).bind fun boolValue =>
  -- Data Value
  (cell row 6).bind fun dataValue =>
  -- Sum
  (cell row 7).bind fun c7 =>
  (if c7 ≠ "" then (Outcome.ofExcept (lib.parseFloat c7)).bind fun sum => .ok (some sum)
    else .ok none).bind fun sum =>
  .ok { Record.zeroValue lib with
    Time := time, UpdateTime := updateTime, Name := name, Unit := unit, Value := value,
    StringValue := stringValue, BoolValue := boolValue, DataValue := dataValue, Sum := sum }

/-- The loop of `ReadCSV` (lines 102-156) with `p` the pack so far. -/
def readLoop {F : Type} (lib : Float64 F) :
    List (Except String (List String)) → Pack F → Outcome (Pack F)
  | [], p => .ok p
  | .error err :: _, _ => .error err
  | .ok row :: rest, p => (readRecord lib row).bind fun record => readLoop lib rest (p ++ [record])

/-- The function `ReadCSV` (lines 78-159) on the results of the reader. -/
def ReadCSV {F : Type} (lib : Float64 F) (r : List (Except String (List String)))
    (options : List (Options → Options)) : Outcome (Pack F) :=
  let o := applyOptions options
  if o.WithHeader then
    match r with
    | [] => .error "missing header or no input"
    | .error err :: _ => .error err
    | .ok row :: rest =>
      let joined := stringsJoin row ","
      if joined ≠ CSVHeader then
        .error ("unexpected header: " ++ joined ++ ". Expected: " ++ CSVHeader)
      else readLoop lib rest []
  else readLoop lib r []

/-- DecodeCSV takes a SenML pack in CSV and decodes it into a Pack. -/
def DecodeCSV {F : Type} (lib : Float64 F) (b : List (Except String (List String)))
    (options : List (Options → Options)) : Outcome (Pack F) :=
  match ReadCSV lib b options with
  | .ok p => .ok p
  | .error err => .error err
  | .panic m => .panic m

/-- What a csv reader returns for the text that a csv writer made of the given rows. -/
def csvText (rows : List (List String)) : List (Except String (List String)) :=
  rows.map .ok

/-! ## An executable instance

Whole numbers are float64 values, and below 2^53 in magnitude their sums and comparisons are
exact; `strconv` prints them as decimal integers and parses these back. The conversion
`int64(x)` of a whole number within the range of int64 is this number; outside the range it is
the smallest int64, as on amd64. This instance is used to run the definitions above on such
inputs. -/

/-- The value of a string of decimal digits. -/
def parseDigits : List Char → Option Nat
  | [] => none
  | cs => cs.foldl
      (fun acc c => acc.bind fun n => if c.isDigit then some (10 * n + (c.toNat - 48)) else none)
      (some 0)

/-- The error of `strconv.ParseFloat` for a text that is not a number. -/
def parseFloatSyntaxError (s : String) : String :=
  "strconv.ParseFloat: parsing \"" ++ s ++ "\": invalid syntax"

/-- Parsing of an optionally signed decimal integer. -/
def parseWhole (s : String) : Except String Int :=
  let digits := match s.data with
    | '-' :: ds => (parseDigits ds).map fun n => - (n : Int)
    | '+' :: ds => (parseDigits ds).map fun n => (n : Int)
    | ds => (parseDigits ds).map fun n => (n : Int)
  match digits with
  | some n => .ok n
  | none => .error (parseFloatSyntaxError s)

/-- The whole-number instance of the float64 operations. -/
def wholeFloat64 : Float64 Int where
  ofInt := fun n => n
  add := fun x y => x + y
  lt := fun x y => decide (x < y)
  isZero := fun x => decide (x = 0)
  parseFloat := parseWhole
  formatFloat := fun x => toString x
  mul := fun x y => x * y
  toInt64 := fun x =>
    if -9223372036854775808 ≤ x ∧ x < 9223372036854775808 then x else -9223372036854775808
  sprintfF := fun x => toString x ++ ".000000"

/-! ## The words of the specification

Definitions that follow the specification, not the code: what a record inherits is described
there as "the most recent non-empty (non-zero) base value at or before the record". -/

/-- The last element of `xs` that satisfies `keep`, and `d` if there is none. -/
def lastSuch {α : Type} (keep : α → Bool) (d : α) (xs : List α) : α :=
  ((xs.filter keep).getLast?).getD d

/-- The most recent non-empty base name at or before record `i` of `p`, else the empty string. -/
def inheritedBaseName {F : Type} (p : Pack F) (i : Nat) : String :=
  lastSuch (fun s => decide (s ≠ "")) "" ((p.take (i + 1)).map (·.BaseName))

/-- The most recent non-empty base unit at or before record `i` of `p`, else the empty string. -/
def inheritedBaseUnit {F : Type} (p : Pack F) (i : Nat) : String :=
  lastSuch (fun s => decide (s ≠ "")) "" ((p.take (i + 1)).map (·.BaseUnit))

/-- The most recent non-zero base time at or before record `i` of `p`, else zero. -/
def inheritedBaseTime {F : Type} (lib : Float64 F) (p : Pack F) (i : Nat) : F :=
  lastSuch (fun t => !lib.isZero t) lib.zero ((p.take (i + 1)).map (·.BaseTime))

/-- The most recent non-zero base version at or before record `i` of `p`, else 5. -/
def inheritedVersion {F : Type} (p : Pack F) (i : Nat) : Int :=
  lastSuch (fun v => decide (v ≠ 0)) 5 ((p.take (i + 1)).map (·.BaseVersion))

/-- Which of value, stringValue, dataValue, boolValue are populated. -/
def valueSlots {F : Type} (r : Record F) : List Bool :=
  [r.Value.isSome, decide (r.StringValue ≠ ""), decide (r.DataValue ≠ ""), r.BoolValue.isSome]

/-- Whether one of value, stringValue, dataValue, boolValue, sum is populated. -/
def hasValueOrSum {F : Type} (r : Record F) : Prop :=
  r.Value.isSome = true ∨ r.StringValue ≠ "" ∨ r.DataValue ≠ "" ∨ r.BoolValue.isSome = true ∨
    r.Sum.isSome = true

/-- The first non-zero base version among the records before record `i` of `p`, if there is
one: the `seenVersion` of the specification, "unset until the first record with non-zero
`baseVersion` is observed". -/
def seenVersion {F : Type} (p : Pack F) (i : Nat) : Option Int :=
  ((p.take i).map (·.BaseVersion)).find? (fun v => decide (v ≠ 0))

/-- The name grammar of the specification: "starts with one alphanumeric character, followed by
zero or more characters drawn from alphanumerics and the set `- : . / _`". -/
def specNameOk : List Char → Bool
  | [] => false
  | c :: rest =>
    c.isAlphanum && rest.all (fun x => x.isAlphanum || decide (x ∈ ['-', ':', '.', '/', '_']))

/-- The checks of the specification on record `i` of `p`, in its order, each with the error it
raises when it fails: version conflict (a non-zero baseVersion that differs from the version
seen before), empty effective name, invalid effective name, too many values, missing value. -/
def specChecks {F : Type} (p : Pack F) (i : Nat) (r : Record F) : List (Option String) :=
  let name := inheritedBaseName p i ++ r.Name
  [ (match seenVersion p i with
      | some v => if r.BaseVersion ≠ 0 ∧ r.BaseVersion ≠ v then some errVersionChange else none
      | none => none),
    (if name = "" then some errEmptyName else none),
    (if specNameOk name.data then none else some errInvalidName),
    (if 1 < (valueSlots r).count true then some errTooManyValues else none),
    (if r.Value.isSome = true ∨ r.StringValue ≠ "" ∨ r.DataValue ≠ "" ∨
        r.BoolValue.isSome = true ∨ r.Sum.isSome = true then none
      else some errNoValue) ]

/-- The error of the first failing check of a list of checks. -/
def firstFailure (checks : List (Option String)) : Option String :=
  (checks.filterMap id).head?

/-- A pack of the whole-number instance: the first record declares the version -1, the second
the version 7 and has no value and no sum. -/
def minusOnePack : Pack Int :=
  [{ Record.zeroValue wholeFloat64 with BaseVersion := -1, Name := "a", Value := some 1 },
   { Record.zeroValue wholeFloat64 with BaseVersion := 7, Name := "b" }]

/-! ## The loops of `Validate` and `Normalize`, turn by turn

Definitions that follow the code: the loop variables as the code updates them and the checks
as the code makes them. Where a definition is in the words of the specification, it says so. -/

/-- The loop variables of `Validate` after a turn that returned no error. -/
def validateVars {F : Type} (st : ValidateState) (r : Record F) : ValidateState :=
  { bname := if r.BaseName.length > 0 then r.BaseName else st.bname
    bver := match checkVersion st.bver r with
      | .ok bver => bver
      | .error _ => st.bver }

/-- The loop variables of `Validate` when it comes to record `i` of `p`. -/
def validateVarsAt {F : Type} (p : Pack F) (i : Nat) : ValidateState :=
  (p.take i).foldl validateVars { bname := "", bver := -1 }

/-- The checks that one turn of the loop of `Validate` makes, in the order in which the code
makes them, each with the error it returns when it fails; the first is the code's own
`checkVersion`. `st` holds the loop variables when `Validate` comes to the record. -/
def checksInOrder {F : Type} (st : ValidateState) (r : Record F) : List (Option String) :=
  let name := (validateVars st r).bname ++ r.Name
  [ (match checkVersion st.bver r with
      | .ok _ => none
      | .error e => some e),
    (if name = "" then some errEmptyName else none),
    (if MatchString validName name then none else some errInvalidName),
    (if 1 < (valueSlots r).count true then some errTooManyValues else none),
    (if hasValue r || r.Sum.isSome then none else some errNoValue) ]

/-- Which of the four base values a record inherits: the loop variables `bname`, `btime`,
`bunit`, `ver` of `Normalize`. -/
structure BaseValues (F : Type) where
  bname : String
  btime : F
  bunit : String
  ver : Int

/-- The initial values of `bname`, `btime`, `bunit`, `ver` in `Normalize` (lines 257-260). -/
def BaseValues.initial {F : Type} (lib : Float64 F) : BaseValues F :=
  { bname := "", btime := lib.zero, bunit := "", ver := 5 }

/-- The base values after a record has overridden them (lines 276-287). -/
def BaseValues.next {F : Type} (lib : Float64 F) (b : BaseValues F) (r : Record F) :
    BaseValues F :=
  { bname := if r.BaseName.length > 0 then r.BaseName else b.bname
    btime := if !lib.isZero r.BaseTime then r.BaseTime else b.btime
    bunit := if r.BaseUnit.length > 0 then r.BaseUnit else b.bunit
    ver := if r.BaseVersion ≠ 0 then r.BaseVersion else b.ver }

/-- The time of a record after the pivot test (lines 298-301) on the sum `t`. -/
def absoluteTime {F : Type} (lib : Float64 F) (now t : F) : F :=
  if lib.lt t (lib.ofInt pivot) then lib.add now t else t

/-- A record with the base values `b` resolved into its fields (lines 288-301). -/
def resolve {F : Type} (lib : Float64 F) (now : F) (b : BaseValues F) (r : Record F) :
    Record F :=
  { r with
    BaseName := "", BaseTime := lib.zero, BaseUnit := "", BaseVersion := b.ver,
    Name := b.bname ++ r.Name,
    Unit := if r.Unit.length = 0 then b.bunit else r.Unit,
    Time := absoluteTime lib now (lib.add b.btime r.Time) }

/-- The records that the second loop of `Normalize` stores, one after the other, when it starts
from the base values `b`. -/
def normalizeFrom {F : Type} (lib : Float64 F) (now : F) :
    BaseValues F → List (Record F) → List (Record F)
  | _, [] => []
  | b, r :: rs =>
    if hasValue r then
      resolve lib now (b.next lib r) r :: normalizeFrom lib now (b.next lib r) rs
    else normalizeFrom lib now (b.next lib r) rs

/-- What record `i` of `p` inherits, in the words of the specification: for each base value the
most recent non-empty (non-zero) one at or before the record, dropped records included. -/
def inheritedBase {F : Type} (lib : Float64 F) (p : Pack F) (i : Nat) : BaseValues F :=
  { bname := inheritedBaseName p i
    btime := inheritedBaseTime lib p i
    bunit := inheritedBaseUnit p i
    ver := inheritedVersion p i }

/-- A record of the whole-number instance, for running the definitions. -/
def sample (bver : Int) (name : String) (time : Int) (v : Option Int) (vs : String) :
    Record Int :=
  { Record.zeroValue wholeFloat64 with
    BaseVersion := bver, Name := name, Time := time, Value := v, StringValue := vs }

/-- The rows of `csvString` in `codec_csv_test.go` (lines 14-17), the reference pack in CSV. -/
def referenceCsv : List (List String) :=
  [["946684799", "10", "dev123temp", "degC", "22.1", "", "", "", "0"],
   ["946684799", "0", "dev123room", "degC", "", "kitchen", "", "", ""],
   ["946684800", "0", "dev123data", "degC", "", "", "", "abc", ""],
   ["946684800", "0", "dev123ok", "degC", "", "", "true", "", ""]]

/-- The pack of `ExampleEncodeCSV` in `codec_csv_test.go` (lines 81-84). -/
def examplePack : Pack Int :=
  [{ Record.zeroValue wholeFloat64 with
      Time := 1276020000, Name := "room1/temp_label", StringValue := "hot" },
   { Record.zeroValue wholeFloat64 with
      Time := 1276020100, Name := "room1/temp_label", StringValue := "cool" }]

/-- A pack of the whole-number instance with base values: a record that has a base name, a base
unit and a relative time, and a record that has only a sum. -/
def basePack : Pack Int :=
  [{ sample 0 "temp" 2 (some 1) "" with BaseName := "dev", BaseUnit := "degC" },
   { sample 0 "x" 0 none "" with Sum := some 3 }]

/-- The nine cells of the header row. -/
def headerCells : List String :=
  ["Time", "Update Time", "Name", "Unit", "Value", "String Value", "Boolean Value", "Data Value",
    "Sum"]

/-! ## The maps of the binary formats (`senml.go`, lines 42-61 and 199-215)

For CBOR and MessagePack, `Encode` hands the pack to `Encoder.Encode` of `ugorji/go/codec`,
which writes a slice of structs as an array of maps, one map for each struct, with the fields
in their order. The key of a field is the name in its `codec` tag or else in its `json` tag;
the fields of `Record` have `json` and `xml` tags only. A field with `omitempty` is left out
when it holds its zero value. -/

/-- The values in the map of a record: an integer, a float64, a text, a boolean. -/
inductive Item (F : Type) where
  | int (n : Int) : Item F
  | float (x : F) : Item F
  | text (s : String) : Item F
  | bool (b : Bool) : Item F
deriving DecidableEq, Repr

/-- The names in the `json` tags of the fields of `Record` (lines 43-60), in the order of the
fields. -/
def fieldTags : List String :=
  ["_", "bn", "bt", "bu", "bver", "n", "u", "t", "ut", "v", "vs", "vd", "vb", "s"]

/-- The entry of a pointer field with `omitempty` in the map of a record: none when the
pointer is nil. -/
def optionalEntry {κ F : Type} (label : κ) (o : Option (Item F)) : List (κ × Item F) :=
  match o with
  | some item => [(label, item)]
  | none => []

/-- The map that `Encoder.Encode` makes of a record for the binary formats, as the list of its
entries: every field of `Record` (lines 43-60) under the name in its `json` tag, left out when
it holds its zero value, as all the tags have `omitempty`. `isZero` is the test `x == 0` of
float64. -/
def taggedMap {F : Type} (isZero : F → Bool) (r : Record F) : List (String × Item F) :=
  optionalEntry "_" (r.XMLName.map Item.bool) ++
  (if r.BaseName ≠ "" then [("bn", Item.text r.BaseName)] else []) ++
  (if isZero r.BaseTime = false then [("bt", Item.float r.BaseTime)] else []) ++
  (if r.BaseUnit ≠ "" then [("bu", Item.text r.BaseUnit)] else []) ++
  (if r.BaseVersion ≠ 0 then [("bver", Item.int r.BaseVersion)] else []) ++
  (if r.Name ≠ "" then [("n", Item.text r.Name)] else []) ++
  (if r.Unit ≠ "" then [("u", Item.text r.Unit)] else []) ++
  (if isZero r.Time = false then [("t", Item.float r.Time)] else []) ++
  (if isZero r.UpdateTime = false then [("ut", Item.float r.UpdateTime)] else []) ++
  optionalEntry "v" (r.Value.map Item.float) ++
  (if r.StringValue ≠ "" then [("vs", Item.text r.StringValue)] else []) ++
  (if r.DataValue ≠ "" then [("vd", Item.text r.DataValue)] else []) ++
  optionalEntry "vb" (r.BoolValue.map Item.bool) ++
  optionalEntry "s" (r.Sum.map Item.float)

/-! ## `Decode` and `Encode` (`senml.go`, lines 16-34 and 69-253)

A `[]byte` is a `String` like a Go `string`, and `len` of it is the size in bytes. The
marshalling packages (`encoding/json`, `encoding/xml`, `ugorji/go/codec`) are a parameter. -/

/-- Format is the SenML encoding/decoding format. -/
abbrev Format := Int

def JSON : Format := 1

def XML : Format := 2

def CBOR : Format := 3

def CSV : Format := 4

def MPACK : Format := 5

def LINEP : Format := 6

def JSONLINE : Format := 7

/-- OutputOptions are encoding options. -/
structure OutputOptions where
  PrettyPrint : Bool
  Topic : String
deriving DecidableEq, Repr

/-- The marshalling functions called by `Decode` and `Encode`. An unmarshalling into `&p` gives
the pack that `p` holds after the call and the error, if any. -/
structure Codecs (F : Type) where
  /-- The call `json.Unmarshal(msg, &p)`. -/
  jsonUnmarshal : String → Pack F × Option String
  /-- The call `json.Unmarshal([]byte(line), r)` for `r := new(Record)`. -/
  jsonUnmarshalRecord : String → Record F × Option String
  /-- The call `xml.Unmarshal(msg, &temp)`, with `temp.Pack` in case of success. -/
  xmlUnmarshal : String → Except String (Pack F)
  /-- The CBOR call `decoder.Decode(&p)`. -/
  cborDecode : String → Pack F × Option String
  /-- The MessagePack call `decoder.Decode(&p)`. -/
  mpackDecode : String → Pack F × Option String
  /-- The call `json.Marshal(p)`. -/
  jsonMarshal : Pack F → Except String String
  /-- The call `json.Marshal(r)`. -/
  jsonMarshalRecord : Record F → Except String String
  /-- The call `xml.Marshal(&xmlPack)`. -/
  xmlMarshal : Pack F → Except String String
  /-- The call `xml.MarshalIndent(&xmlPack, "", "  ")`. -/
  xmlMarshalIndent : Pack F → Except String String
  /-- The CBOR call `encoder.Encode(p)` from the maps of the records on: their bytes `data`,
  or the error. -/
  cborEncode : List (List (String × Item F)) → Except String String
  /-- The MessagePack call `encoder.Encode(p)` from the maps of the records on: their bytes
  `data`, or the error. -/
  mpackEncode : List (List (String × Item F)) → Except String String

/-- The loop over the JSON lines in `Decode` (lines 86-95) with `p` the pack so far: the pack
after the loop, or what `Decode` returns from inside the loop. -/
def decodeLines {F : Type} (codecs : Codecs F) :
    List String → Pack F → Except (Pack F × Option String) (Pack F)
  | [], p => .ok p
  | line :: lines, p =>
    if line.utf8ByteSize > 5 then
      match codecs.jsonUnmarshalRecord line with
      | (_, some err) => .error (p, some ("error parsing JSON line: " ++ err))
      | (r, none) => decodeLines codecs lines (p ++ [r])
    else decodeLines codecs lines p

/-- The switch of `Decode` (lines 75-125): the pack `p` after it, or what `Decode` returns from
inside it. -/
def decodeSwitch {F : Type} (codecs : Codecs F) (msg : String) (format : Format) :
    Except (Pack F × Option String) (Pack F) :=
  if format = JSON then
    match codecs.jsonUnmarshal msg with
    | (p, some err) => .error (p, some err)
    | (p, none) => .ok p
  else if format = JSONLINE then
    decodeLines codecs (stringsSplit msg '\n') []
  else if format = XML then
    match codecs.xmlUnmarshal msg with
    | .error err => .error ([], some err)
    | .ok pack => .ok pack
  else if format = CBOR then
    match codecs.cborDecode msg with
    | (p, some err) => .error (p, some ("error parsing CBOR: " ++ err))
    | (p, none) => .ok p
  else if format = MPACK then
    match codecs.mpackDecode msg with
    | (p, some err) => .error (p, some ("error parsing MPACK: " ++ err))
    | (p, none) => .ok p
  else .ok []

/-- Decode takes a SenML message in the given format, parses it and decodes it into the
returned SenML pack: the pair `(Pack, error)` that it returns. -/
def Decode {F : Type} (codecs : Codecs F) (msg : String) (format : Format) :
    Pack F × Option String :=
  match decodeSwitch codecs msg format with
  | .error ret => ret
  | .ok p =>
    match Validate p with
    | .error err => (p, some ("invalid SenML Pack: " ++ err))
    | .ok _ => (p, none)

/-- The call `strconv.FormatInt(n, 10)`. -/
def formatInt (n : Int) : String := toString n

/-- The loop of the pretty-printed JSON output of `Encode` (lines 150-159), with `i` the index
and `lines` the text so far. -/
def encodePrettyLines {F : Type} (codecs : Codecs F) :
    List (Record F) → Nat → String → Except String String
  | [], _, lines => .ok lines
  | r :: rs, i, lines =>
    let lines := if i ≠ 0 then lines ++ ",\n  " else lines
    match codecs.jsonMarshalRecord r with
    | .error err => .error err
    | .ok recData => encodePrettyLines codecs rs (i + 1) (lines ++ recData)

/-- The loop of the CSV output of `Encode` (lines 187-196). -/
def encodeCsvLines {F : Type} (lib : Float64 F) (normalized : Pack F) : String :=
  normalized.foldl (fun lines r =>
    match r.Value with
    | some v =>
      let lines := lines ++ (r.Name ++ "," ++ lib.sprintfF r.Time ++ "," ++ lib.sprintfF v)
      let lines := if r.Unit.length > 0 then lines ++ ("," ++ r.Unit) else lines
      lines ++ "\r\n"
    | none => lines) ""

/-- The loop of the line protocol output of `Encode` (lines 220-233), the buffer being empty at
the start. -/
def encodeLinep {F : Type} (lib : Float64 F) (topic : String) (p : Pack F) : String :=
  p.foldl (fun buf r =>
    match r.Value with
    | some v =>
      let buf := buf ++ topic
      let buf := buf ++ ",n="
      let buf := buf ++ r.Name
      let buf := buf ++ ",u="
      let buf := buf ++ r.Unit
      let buf := buf ++ " v="
      let buf := buf ++ lib.formatFloat v
      let buf := buf ++ " "
      let buf := buf ++ formatInt (lib.toInt64 (lib.mul r.Time (lib.ofInt 1000000000)))
      buf ++ "\n"
    | none => buf) ""

/-- The loop of the JSON lines output of `Encode` (lines 239-248) with `buf` the buffer. -/
def encodeJsonLines {F : Type} (codecs : Codecs F) :
    List (Record F) → String → Except String String
  | [], buf => .ok buf
  | r :: rs, buf =>
    if r.Value.isSome then
      match codecs.jsonMarshalRecord r with
      | .error err => .error ("error encoding JSON line: " ++ err)
      | .ok data => encodeJsonLines codecs rs (buf ++ data ++ "\n")
    else encodeJsonLines codecs rs buf

/-- Encode takes a SenML record, and encodes it using the given format: the bytes, or the
error, that it returns. -/
def Encode {F : Type} (lib : Float64 F) (codecs : Codecs F) (now : F) (p : Pack F)
    (format : Format) (options : OutputOptions) : Except String String :=
  let options := if options.Topic = "" then { options with Topic := "senml" } else options
  if format = JSON then
    if options.PrettyPrint then
      match encodePrettyLines codecs p 0 "[\n  " with
      | .error err => .error err
      | .ok lines => .ok (lines ++ "\n]\n")
    else codecs.jsonMarshal p
  else if format = XML then
    if options.PrettyPrint then codecs.xmlMarshalIndent p else codecs.xmlMarshal p
  else if format = CSV then
    .ok (encodeCsvLines lib (Normalize lib now p))
  else if format = CBOR then
    match codecs.cborEncode (p.map (taggedMap lib.isZero)) with
    | .error err => .error ("error encoding CBOR: " ++ err)
    | .ok data => .ok data
  else if format = MPACK then
    match codecs.mpackEncode (p.map (taggedMap lib.isZero)) with
    | .error err => .error ("error encoding MPACK: " ++ err)
    | .ok data => .ok data
  else if format = LINEP then
    .ok (encodeLinep lib options.Topic p)
  else if format = JSONLINE then
    encodeJsonLines codecs p ""
  else .ok ""

/-- The line of the line protocol for a record with the value `v`, in the words of the
specification: `<topic>,n=<name>,u=<unit> v=<value> <time*1e9 as integer nanoseconds>`. -/
def linepLine {F : Type} (lib : Float64 F) (topic : String) (r : Record F) (v : F) : String :=
  topic ++ ",n=" ++ r.Name ++ ",u=" ++ r.Unit ++ " v=" ++ lib.formatFloat v ++ " " ++
    toString (lib.toInt64 (lib.mul r.Time (lib.ofInt 1000000000))) ++ "\n"

/-- The name of a JSON object `{"n":"..."}`, for a name without quotes and backslashes. -/
def jsonNameObject (line : String) : Option String :=
  match line.data with
  | '{' :: '"' :: 'n' :: '"' :: ':' :: '"' :: rest =>
    match rest.reverse with
    | '}' :: '"' :: name =>
      if name.all (fun c => c ≠ '"' && c ≠ '\\' && decide (32 ≤ c.toNat)) then
        some (String.mk name.reverse)
      else none
    | _ => none
  | _ => none

/-- The JSON line `{"n":"a"}`: a record with the name `a`, no value and no sum. -/
def jsonLineA : String := "\x7b\"n\":\"a\"\x7d"

/-- An executable instance of the marshalling functions for one kind of input: a JSON line
`{"n":"..."}` is unmarshalled into a record that has this name and nothing else, as
`encoding/json` does. Every other call returns an error of this instance. -/
def nameOnlyCodecs : Codecs Int where
  jsonUnmarshal := fun _ => ([], some "input outside the instance")
  jsonUnmarshalRecord := fun line =>
    match jsonNameObject line with
    | some name => ({ Record.zeroValue wholeFloat64 with Name := name }, none)
    | none => (Record.zeroValue wholeFloat64, some "input outside the instance")
  xmlUnmarshal := fun _ => .error "input outside the instance"
  cborDecode := fun _ => ([], some "input outside the instance")
  mpackDecode := fun _ => ([], some "input outside the instance")
  jsonMarshal := fun _ => .error "input outside the instance"
  jsonMarshalRecord := fun _ => .error "input outside the instance"
  xmlMarshal := fun _ => .error "input outside the instance"
  xmlMarshalIndent := fun _ => .error "input outside the instance"
  cborEncode := fun _ => .error "input outside the instance"
  mpackEncode := fun _ => .error "input outside the instance"

/-- A pack of the whole-number instance that declares its version in the second record. -/
def lateVersionPack : Pack Int :=
  [sample 0 "a" 0 (some 1) "", sample 7 "b" 0 (some 1) ""]

/-! ## The label maps of the specification, and the CBOR test

The specification gives the binary encoding of a record as a map keyed by integer labels, and
the test `codec_cbor_test.go` has the bytes of such maps. The definitions of this section
follow the words of the specification and the text of the test; the maps of the code are
`taggedMap` above. -/

/-- In the words of the specification: the label table, in the order of the fields of
`Record`: baseName -2, baseTime -3, baseUnit -4, baseVersion -1, name 0, unit 1, time 6,
updateTime 7, value 2, stringValue 3, dataValue 8, boolValue 4, sum 5. -/
def specLabelTable : List Int := [-2, -3, -4, -1, 0, 1, 6, 7, 2, 3, 8, 4, 5]

/-- In the words of the specification: the map of a record, as the list of its entries: every
field under its label, and "a field is omitted from the encoded map when it holds its
zero/empty value". `isZero` is the test `x == 0` of float64. -/
def specLabelMap {F : Type} (isZero : F → Bool) (r : Record F) : List (Int × Item F) :=
  (if r.BaseName ≠ "" then [((-2 : Int), Item.text r.BaseName)] else []) ++
  (if isZero r.BaseTime = false then [((-3 : Int), Item.float r.BaseTime)] else []) ++
  (if r.BaseUnit ≠ "" then [((-4 : Int), Item.text r.BaseUnit)] else []) ++
  (if r.BaseVersion ≠ 0 then [((-1 : Int), Item.int r.BaseVersion)] else []) ++
  (if r.Name ≠ "" then [((0 : Int), Item.text r.Name)] else []) ++
  (if r.Unit ≠ "" then [((1 : Int), Item.text r.Unit)] else []) ++
  (if isZero r.Time = false then [((6 : Int), Item.float r.Time)] else []) ++
  (if isZero r.UpdateTime = false then [((7 : Int), Item.float r.UpdateTime)] else []) ++
  optionalEntry (2 : Int) (r.Value.map Item.float) ++
  (if r.StringValue ≠ "" then [((3 : Int), Item.text r.StringValue)] else []) ++
  (if r.DataValue ≠ "" then [((8 : Int), Item.text r.DataValue)] else []) ++
  optionalEntry (4 : Int) (r.BoolValue.map Item.bool) ++
  optionalEntry (5 : Int) (r.Sum.map Item.float)

/-- The record with every field at its zero value, `zero` being the float64 zero. -/
def zeroRecord {F : Type} (zero : F) : Record F :=
  { XMLName := none, BaseName := "", BaseTime := zero, BaseUnit := "", BaseVersion := 0,
    Name := "", Unit := "", Time := zero, UpdateTime := zero, Value := none,
    StringValue := "", DataValue := "", BoolValue := none, Sum := none }

/-- In the words of the specification: the value of one map entry goes to the field of its
label; an entry with a label outside the table or with a value of another kind than the field
is refused. -/
def specSetField {F : Type} (r : Record F) (entry : Int × Item F) : Option (Record F) :=
  match entry.2 with
  | .text s =>
    if entry.1 = -2 then some { r with BaseName := s }
    else if entry.1 = -4 then some { r with BaseUnit := s }
    else if entry.1 = 0 then some { r with Name := s }
    else if entry.1 = 1 then some { r with Unit := s }
    else if entry.1 = 3 then some { r with StringValue := s }
    else if entry.1 = 8 then some { r with DataValue := s }
    else none
  | .float x =>
    if entry.1 = -3 then some { r with BaseTime := x }
    else if entry.1 = 6 then some { r with Time := x }
    else if entry.1 = 7 then some { r with UpdateTime := x }
    else if entry.1 = 2 then some { r with Value := some x }
    else if entry.1 = 5 then some { r with Sum := some x }
    else none
  | .int n => if entry.1 = -1 then some { r with BaseVersion := n } else none
  | .bool b => if entry.1 = 4 then some { r with BoolValue := some b } else none

/-- In the words of the specification: the record of a map with integer labels: "decode must
accept any subset/order of labels and leave omitted fields at their zero value". -/
def specRecordOfMap {F : Type} (zero : F) (m : List (Int × Item F)) : Option (Record F) :=
  m.foldlM specSetField (zeroRecord zero)

/-- A float64 that is zero, as the zero value: what comes back for a field that was omitted. -/
def zeroed {F : Type} (isZero : F → Bool) (zero x : F) : F := if isZero x then zero else x

/-! ### CBOR bytes, for the reference pack of the test

The bytes of the test `codec_cbor_test.go` are read as CBOR (RFC 8949) as far as it occurs in
them: arrays, maps with integer labels, integers, texts of ASCII characters, float64 values in
eight bytes, booleans. A float64 is here its bit pattern. -/

/-- The `k` bytes of `n`, most significant first. -/
def bytesBE : Nat → Nat → List Nat
  | 0, _ => []
  | k + 1, n => (n / 256 ^ k) % 256 :: bytesBE k n

/-- The head of a CBOR data item: major type and argument. -/
def cborHead (major n : Nat) : List Nat :=
  if n < 24 then [major * 32 + n]
  else if n < 256 then [major * 32 + 24, n]
  else if n < 65536 then (major * 32 + 25) :: bytesBE 2 n
  else if n < 4294967296 then (major * 32 + 26) :: bytesBE 4 n
  else (major * 32 + 27) :: bytesBE 8 n

/-- The bytes of an integer. -/
def cborInt (n : Int) : List Nat :=
  if 0 ≤ n then cborHead 0 n.toNat else cborHead 1 (-1 - n).toNat

/-- The bytes of a value of a map, the float64 being given by its bits. -/
def cborItem : Item Nat → List Nat
  | .int n => cborInt n
  | .float bits => 251 :: bytesBE 8 bits
  | .text s =>
    cborHead 3 s.utf8ByteSize ++
      s.data.flatMap (fun c => (String.utf8EncodeChar c).map (·.toNat))
  | .bool b => [if b then 245 else 244]

/-- The bytes of a map with integer labels. -/
def cborMap (m : List (Int × Item Nat)) : List Nat :=
  cborHead 5 m.length ++ m.flatMap (fun e => cborInt e.1 ++ cborItem e.2)

/-- The bytes of a pack: the array of the maps of its records. -/
def cborPack (maps : List (List (Int × Item Nat))) : List Nat :=
  cborHead 4 maps.length ++ maps.flatMap cborMap

/-- The two hexadecimal digits of each byte. -/
def hexString (bytes : List Nat) : String :=
  String.mk (bytes.flatMap (fun b =>
    ["0123456789abcdef".data.getD (b / 16) '0', "0123456789abcdef".data.getD (b % 16) '0']))

/-- The value of a hexadecimal digit. -/
def hexValue (c : Char) : Option Nat :=
  if c.isDigit then some (c.toNat - 48)
  else if 'a' ≤ c ∧ c ≤ 'f' then some (c.toNat - 87)
  else none

/-- The bytes of a text of hexadecimal digits. -/
def hexBytes : List Char → Option (List Nat)
  | [] => some []
  | [_] => none
  | a :: b :: rest =>
    match hexValue a, hexValue b, hexBytes rest with
    | some x, some y, some bytes => some ((16 * x + y) :: bytes)
    | _, _, _ => none

/-- The number that the given bytes are, most significant first. -/
def natOfBytes (bytes : List Nat) : Nat := bytes.foldl (fun n b => 256 * n + b) 0

/-- Reading the head of a data item: major type, additional information, argument, and the
bytes after it. -/
def readHead : List Nat → Option (Nat × Nat × Nat × List Nat)
  | [] => none
  | b :: rest =>
    let info := b % 32
    let size := if info < 24 then 0 else if info = 24 then 1 else if info = 25 then 2
      else if info = 26 then 4 else 8
    if 27 < info ∨ rest.length < size then none
    else some (b / 32, info, if info < 24 then info else natOfBytes (rest.take size),
      rest.drop size)

/-- Reading an integer. -/
def readInt (bytes : List Nat) : Option (Int × List Nat) :=
  match readHead bytes with
  | some (0, _, n, rest) => some ((n : Int), rest)
  | some (1, _, n, rest) => some (-1 - (n : Int), rest)
  | _ => none

/-- Reading a value of a map; a text is read if it is made of ASCII characters. -/
def readItem (bytes : List Nat) : Option (Item Nat × List Nat) :=
  match readHead bytes with
  | some (0, _, n, rest) => some (.int (n : Int), rest)
  | some (1, _, n, rest) => some (.int (-1 - (n : Int)), rest)
  | some (3, _, n, rest) =>
    if rest.length < n ∨ (rest.take n).any (fun b => decide (128 ≤ b)) then none
    else some (.text (String.mk ((rest.take n).map Char.ofNat)), rest.drop n)
  | some (7, 20, _, rest) => some (.bool false, rest)
  | some (7, 21, _, rest) => some (.bool true, rest)
  | some (7, 27, bits, rest) => some (.float bits, rest)
  | _ => none

/-- Reading the given number of entries of a map. -/
def readEntries : Nat → List Nat → Option (List (Int × Item Nat) × List Nat)
  | 0, bytes => some ([], bytes)
  | k + 1, bytes =>
    match readInt bytes with
    | none => none
    | some (label, rest) =>
      match readItem rest with
      | none => none
      | some (item, rest) =>
        match readEntries k rest with
        | none => none
        | some (entries, rest) => some ((label, item) :: entries, rest)

/-- Reading the given number of maps. -/
def readMaps : Nat → List Nat → Option (List (List (Int × Item Nat)) × List Nat)
  | 0, bytes => some ([], bytes)
  | k + 1, bytes =>
    match readHead bytes with
    | some (5, _, n, rest) =>
      match readEntries n rest with
      | none => none
      | some (m, rest) =>
        match readMaps k rest with
        | none => none
        | some (maps, rest) => some (m :: maps, rest)
    | _ => none

/-- Reading a pack: an array of maps and nothing after it. -/
def readPack (bytes : List Nat) : Option (List (List (Int × Item Nat))) :=
  match readHead bytes with
  | some (4, _, n, rest) =>
    match readMaps n rest with
    | some (maps, []) => some maps
    | _ => none
  | _ => none

/-- The test `x == 0` on the bits of a float64: plus zero and minus zero. -/
def isZeroBits (bits : Nat) : Bool := bits % 2 ^ 63 == 0

/-- The reference pack of the test, from the diagnostic notation in `codec_cbor_test.go`
(lines 12-17), the float64 values by their bits: -45.67, -1, 10, 22.1 and 0. -/
def referencePackBits : Pack Nat :=
  [{ zeroRecord 0 with
      BaseName := "dev123", BaseTime := 0xc046d5c28f5c28f6, BaseUnit := "degC", BaseVersion := 5,
      Name := "temp", Unit := "degC", Time := 0xbff0000000000000,
      UpdateTime := 0x4024000000000000, Value := some 0x403619999999999a, Sum := some 0 },
   { zeroRecord 0 with Name := "room", Time := 0xbff0000000000000, StringValue := "kitchen" },
   { zeroRecord 0 with Name := "data", DataValue := "abc" },
   { zeroRecord 0 with Name := "ok", BoolValue := some true }]

/-- The constant `cborHexBytesString` of `codec_cbor_test.go` (line 18). -/
def cborHexBytesString : String :=
  "84aa216664657631323322fbc046d5c28f5c28f62364646567432005006474656d7001646465674306fbbff000000000000007fb402400000000000002fb403619999999999a05fb0000000000000000a30064726f6f6d06fbbff000000000000003676b69746368656ea20064646174610863616263a200626f6b04f5"

/-- In the words of the specification: the CBOR bytes of a pack of bit patterns, the array of
the label maps of its records; what the test expects of `EncodeCBOR`. -/
def specEncodeCBORBits (p : Pack Nat) : List Nat :=
  cborPack (p.map (specLabelMap isZeroBits))

/-- In the words of the specification: the pack of bit patterns in CBOR bytes, the records of
the label maps read from them; what the test expects of `DecodeCBOR`. -/
def specDecodeCBORBits (bytes : List Nat) : Option (Pack Nat) :=
  (readPack bytes).bind (fun maps => maps.mapM (specRecordOfMap 0))

/-- The records of the reference pack of the test that hold whole numbers only
(`codec_cbor_test.go`, lines 14-16), in the whole-number instance. -/
def referenceTail : Pack Int :=
  [{ Record.zeroValue wholeFloat64 with Name := "room", Time := -1, StringValue := "kitchen" },
   { Record.zeroValue wholeFloat64 with Name := "data", DataValue := "abc" },
   { Record.zeroValue wholeFloat64 with Name := "ok", BoolValue := some true }]

/-- A pack of the whole-number instance for the line protocol: two records with a value, a
record with a string value only, and a record whose time in nanoseconds is outside int64. -/
def linepPack : Pack Int :=
  [sample 0 "a" 3 (some 7) "",
   sample 0 "b" 5 none "x",
   { sample 0 "room1/temp" 1276020000 (some 22) "" with Unit := "degC" },
   sample 0 "far" 10000000000 (some 1) ""]

/-! # Theorems -/

/-! ## Regular expressions -/

theorem nothing_fullMatch (s : List Char) : Regexp.nothing.fullMatch s = false := by
  induction s with
  | nil => rfl
  | cons c s ih => simpa [Regexp.fullMatch, Regexp.deriv] using ih

theorem empty_fullMatch_iff (s : List Char) : Regexp.empty.fullMatch s = true ↔ s = [] := by
  cases s with
  | nil => simp [Regexp.fullMatch, Regexp.nullable]
  | cons c s => simp [Regexp.fullMatch, Regexp.deriv, nothing_fullMatch]

theorem cls_fullMatch_iff (rs : List (Char × Char)) (s : List Char) :
    (Regexp.cls rs).fullMatch s = true ↔ ∃ c, s = [c] ∧ inClass rs c = true := by
  cases s with
  | nil => simp [Regexp.fullMatch, Regexp.nullable]
  | cons c s =>
    by_cases h : inClass rs c = true
    · simp only [Regexp.fullMatch, Regexp.deriv, h, if_true, empty_fullMatch_iff]
      constructor
      · rintro rfl
        exact ⟨c, rfl, h⟩
      · rintro ⟨d, hd, _⟩
        simp only [List.cons.injEq] at hd
        exact hd.2
    · simp only [Regexp.fullMatch, Regexp.deriv, h, if_false, nothing_fullMatch,
        Bool.false_eq_true, false_iff, not_exists, not_and]
      intro d hd
      simp only [List.cons.injEq] at hd
      rw [← hd.1]; exact h

theorem alt_fullMatch (a b : Regexp) (s : List Char) :
    (Regexp.alt a b).fullMatch s = (a.fullMatch s || b.fullMatch s) := by
  induction s generalizing a b with
  | nil => rfl
  | cons c s ih => simp [Regexp.fullMatch, Regexp.deriv, ih]

theorem cat_fullMatch_iff (a b : Regexp) (s : List Char) :
    (Regexp.cat a b).fullMatch s = true ↔
      ∃ t u, s = t ++ u ∧ a.fullMatch t = true ∧ b.fullMatch u = true := by
  induction s generalizing a b with
  | nil =>
    simp only [Regexp.fullMatch, Regexp.nullable, Bool.and_eq_true]
    constructor
    · rintro ⟨ha, hb⟩
      exact ⟨[], [], rfl, ha, hb⟩
    · rintro ⟨t, u, h, ha, hb⟩
      have ht : t = [] := (List.append_eq_nil.mp h.symm).1
      have hu : u = [] := (List.append_eq_nil.mp h.symm).2
      subst ht; subst hu
      exact ⟨ha, hb⟩
  | cons c s ih =>
    have key : (∃ t u, c :: s = t ++ u ∧ a.fullMatch t = true ∧ b.fullMatch u = true) ↔
        ((∃ t u, s = t ++ u ∧ (a.deriv c).fullMatch t = true ∧ b.fullMatch u = true) ∨
          (a.nullable = true ∧ (b.deriv c).fullMatch s = true)) := by
      constructor
      · rintro ⟨t, u, h, ha, hb⟩
        cases t with
        | nil =>
          right
          simp only [List.nil_append] at h
          subst h
          exact ⟨ha, hb⟩
        | cons d t =>
          left
          simp only [List.cons_append, List.cons.injEq] at h
          obtain ⟨h1, h2⟩ := h
          subst h1
          exact ⟨t, u, h2, ha, hb⟩
      · rintro (⟨t, u, h, ha, hb⟩ | ⟨ha, hb⟩)
        · exact ⟨c :: t, u, by simp [h], ha, hb⟩
        · exact ⟨[], c :: s, rfl, ha, hb⟩
    rw [key]
    by_cases hn : a.nullable = true
    · simp only [Regexp.fullMatch, Regexp.deriv, hn, if_true, alt_fullMatch, Bool.or_eq_true, ih,
        true_and]
    · simp only [Regexp.fullMatch, Regexp.deriv, hn, if_false, ih, false_and, or_false,
        Bool.false_eq_true]

theorem star_cls_fullMatch_iff (rs : List (Char × Char)) (s : List Char) :
    (Regexp.star (.cls rs)).fullMatch s = true ↔ ∀ c ∈ s, inClass rs c = true := by
  induction s with
  | nil => simp [Regexp.fullMatch, Regexp.nullable]
  | cons c s ih =>
    have h : (Regexp.star (.cls rs)).fullMatch (c :: s) =
        (Regexp.cat ((Regexp.cls rs).deriv c) (.star (.cls rs))).fullMatch s := rfl
    rw [h, cat_fullMatch_iff]
    by_cases hc : inClass rs c = true
    · simp only [Regexp.deriv, hc, if_true, empty_fullMatch_iff, List.mem_cons, forall_eq_or_imp,
        true_and, ← ih]
      constructor
      · rintro ⟨t, u, h1, h2, h3⟩
        subst h2
        simpa [h1] using h3
      · intro h3
        exact ⟨[], s, rfl, rfl, h3⟩
    · simp only [Regexp.deriv, hc, nothing_fullMatch, List.mem_cons, forall_eq_or_imp]
      simp [nothing_fullMatch]

theorem inClass_alnumClass (c : Char) : inClass alnumClass c = c.isAlphanum := by
  simp only [inClass, alnumClass, List.any_cons, List.any_nil, Bool.or_false,
    Char.isAlphanum, Char.isAlpha, Char.isUpper, Char.isLower, Char.isDigit]
  have h1 : ('a' ≤ c) = (97 ≤ c.val) := rfl
  have h2 : (c ≤ 'z') = (c.val ≤ 122) := rfl
  have h3 : ('A' ≤ c) = (65 ≤ c.val) := rfl
  have h4 : (c ≤ 'Z') = (c.val ≤ 90) := rfl
  have h5 : ('0' ≤ c) = (48 ≤ c.val) := rfl
  have h6 : (c ≤ '9') = (c.val ≤ 57) := rfl
  simp only [h1, h2, h3, h4, h5, h6, ge_iff_le]
  rw [Bool.or_comm (decide (97 ≤ c.val) && decide (c.val ≤ 122)), Bool.or_assoc,
    Bool.or_comm (decide (48 ≤ c.val) && decide (c.val ≤ 57)), ← Bool.or_assoc]

theorem single_range (c d : Char) : (decide (d ≤ c) && decide (c ≤ d)) = decide (c = d) := by
  by_cases h : c = d
  · subst h; simp
  · have : ¬ (d ≤ c ∧ c ≤ d) := fun ⟨h1, h2⟩ => h (le_antisymm h2 h1)
    simp only [h, decide_False]
    by_cases h1 : d ≤ c <;> by_cases h2 : c ≤ d <;> simp_all

theorem inClass_nameClass (c : Char) :
    inClass nameClass c = true ↔ (c.isAlphanum = true ∨ c ∈ ['-', ':', '.', '/', '_']) := by
  have h : inClass nameClass c = (inClass alnumClass c ||
      (decide (c = '-') || decide (c = ':') || decide (c = '.') || decide (c = '/') ||
        decide (c = '_'))) := by
    simp only [inClass, nameClass, alnumClass, List.any_cons, List.any_nil, Bool.or_false,
      single_range, Bool.or_assoc]
  rw [h, inClass_alnumClass]
  simp [Bool.or_eq_true, or_assoc]

theorem validName_fullMatch_iff (s : List Char) :
    validName.fullMatch s = true ↔
      ∃ c rest, s = c :: rest ∧ c.isAlphanum = true ∧
        ∀ x ∈ rest, x.isAlphanum = true ∨ x ∈ ['-', ':', '.', '/', '_'] := by
  simp only [validName, Regexp.plus, cat_fullMatch_iff, cls_fullMatch_iff,
    star_cls_fullMatch_iff, inClass_alnumClass, inClass_nameClass]
  constructor
  · rintro ⟨t, u, rfl, ⟨t1, t2, rfl, ⟨c, rfl, hc⟩, h2⟩, hu⟩
    refine ⟨c, t2 ++ u, by simp, hc, ?_⟩
    intro x hx
    rcases List.mem_append.mp hx with hx | hx
    · exact Or.inl (h2 x hx)
    · exact hu x hx
  · rintro ⟨c, rest, rfl, hc, hrest⟩
    exact ⟨[c], rest, rfl, ⟨[c], [], rfl, ⟨c, rfl, hc⟩, by simp⟩, hrest⟩

/-! ## `ValidateName` -/

theorem length_eq_zero_iff_eq_empty (s : String) : s.length = 0 ↔ s = "" := by
  constructor
  · intro h
    have h1 : s.data = [] := List.length_eq_zero.mp h
    exact String.ext h1
  · rintro rfl; rfl

/-- C4: `ValidateName` returns the empty-name error for the empty string; for a non-empty string
it succeeds exactly when the first character is an ASCII letter or digit and every following
character is an ASCII letter, a digit or one of `- : . / _`; and when it does not succeed on a
non-empty string it returns the invalid-name error. -/
theorem ValidateName_spec (name : String) :
    (name = "" → ValidateName name = .error errEmptyName) ∧
    (name ≠ "" →
      (ValidateName name = .ok () ↔
        ∃ c rest, name.data = c :: rest ∧ c.isAlphanum = true ∧
          ∀ x ∈ rest, x.isAlphanum = true ∨ x ∈ ['-', ':', '.', '/', '_'])) ∧
    (name ≠ "" → ValidateName name ≠ .ok () → ValidateName name = .error errInvalidName) := by
  refine ⟨?_, ?_, ?_⟩
  · rintro rfl; rfl
  · intro h
    have h0 : ¬ name.length = 0 := fun h' => h ((length_eq_zero_iff_eq_empty name).mp h')
    rw [← validName_fullMatch_iff]
    unfold ValidateName MatchString
    by_cases hm : validName.fullMatch name.data = true
    · simp [h0, hm]
    · simp [h0, hm]
  · intro h hne
    have h0 : ¬ name.length = 0 := fun h' => h ((length_eq_zero_iff_eq_empty name).mp h')
    unfold ValidateName MatchString at hne ⊢
    by_cases hm : validName.fullMatch name.data = true
    · simp [h0, hm] at hne
    · simp [h0, hm]

/-- The theorem `ValidateName_spec` at the names `"a-b"`, accepted, and `"-a"` and `"a\n"`,
rejected as invalid. -/
theorem ValidateName_spec_witness :
    ValidateName "a-b" = .ok () ∧ ValidateName "-a" = .error errInvalidName ∧
      ValidateName "a\n" = .error errInvalidName :=
  ⟨((ValidateName_spec "a-b").2.1 (by decide)).mpr ⟨'a', ['-', 'b'], rfl, by decide, by decide⟩,
    (ValidateName_spec "-a").2.2 (by decide) (by decide),
    (ValidateName_spec "a\n").2.2 (by decide) (by decide)⟩

/-! ## `Validate` -/

theorem lastSuch_nil {α : Type} (keep : α → Bool) (d : α) : lastSuch keep d [] = d := rfl

theorem lastSuch_cons {α : Type} (keep : α → Bool) (d x : α) (xs : List α) :
    lastSuch keep d (x :: xs) = lastSuch keep (if keep x then x else d) xs := by
  unfold lastSuch
  by_cases h : keep x = true
  · simp only [List.filter_cons, h, if_true]
    cases hf : xs.filter keep with
    | nil => simp
    | cons y ys =>
      rw [List.getLast?_cons_cons, List.getLast?_eq_getLast _ (List.cons_ne_nil y ys)]
      rfl
  · simp only [List.filter_cons, h, if_false]
    simp

theorem length_pos_iff_ne_empty (s : String) : s.length > 0 ↔ s ≠ "" := by
  rw [gt_iff_lt, Nat.pos_iff_ne_zero, ne_eq, ne_eq, length_eq_zero_iff_eq_empty]

theorem ValidateName_eq (name : String) :
    ValidateName name = if name = "" then .error errEmptyName
      else if MatchString validName name then .ok () else .error errInvalidName := by
  unfold ValidateName
  by_cases h : name = ""
  · subst h; rfl
  · have h0 : ¬ name.length = 0 := fun h' => h ((length_eq_zero_iff_eq_empty name).mp h')
    by_cases hm : MatchString validName name = true <;> simp [h, h0, hm]

theorem valueCount_eq {F : Type} (r : Record F) : valueCount r = (valueSlots r).count true := by
  unfold valueCount valueSlots
  simp only [length_pos_iff_ne_empty]
  by_cases h1 : r.Value.isSome = true <;> by_cases h2 : r.StringValue = "" <;>
    by_cases h3 : r.DataValue = "" <;> by_cases h4 : r.BoolValue.isSome = true <;>
    simp [h1, h2, h3, h4]

theorem hasValue_eq {F : Type} (r : Record F) : hasValue r = decide (0 < valueCount r) := by
  unfold valueCount hasValue
  by_cases h1 : r.Value.isSome = true <;> by_cases h2 : r.StringValue.length > 0 <;>
    by_cases h3 : r.DataValue.length > 0 <;> by_cases h4 : r.BoolValue.isSome = true <;>
    simp [h1, h2, h3, h4]

theorem validateRecord_eq {F : Type} (st : ValidateState) (r : Record F) :
    validateRecord st r =
      match firstFailure (checksInOrder st r) with
      | some e => .error e
      | none => .ok (validateVars st r) := by
  unfold validateRecord checksInOrder firstFailure validateVars
  cases hv : checkVersion st.bver r with
  | error e => simp
  | ok bver =>
    simp only [ValidateName_eq, hasValue_eq, ← valueCount_eq]
    by_cases hn : ((if r.BaseName.length > 0 then r.BaseName else st.bname) ++ r.Name) = ""
    · simp [hn]
    · by_cases hm : MatchString validName
          ((if r.BaseName.length > 0 then r.BaseName else st.bname) ++ r.Name) = true
      · by_cases hc : 1 < valueCount r
        · simp [hn, hm, hc]
        · by_cases hs : r.Sum.isSome = true
          · simp [hn, hm, hc, hs]
          · by_cases h0 : 0 < valueCount r
            · simp [hn, hm, hc, hs, h0]
              omega
            · simp [hn, hm, hc, hs, h0]
              omega
      · simp [hn, hm]
theorem validateLoop_cons {F : Type} (st : ValidateState) (r : Record F) (rs : List (Record F)) :
    validateLoop st (r :: rs) =
      match firstFailure (checksInOrder st r) with
      | some e => .error e
      | none => validateLoop (validateVars st r) rs := by
  rw [validateLoop, validateRecord_eq]
  cases firstFailure (checksInOrder st r) <;> rfl

theorem validateLoop_ok_iff {F : Type} (st : ValidateState) (p : List (Record F)) :
    validateLoop st p = .ok () ↔
      ∀ i r, p[i]? = some r →
        firstFailure (checksInOrder ((p.take i).foldl validateVars st) r) = none := by
  induction p generalizing st with
  | nil => simp [validateLoop]
  | cons r rs ih =>
    rw [validateLoop_cons]
    constructor
    · intro h i x hx
      cases hf : firstFailure (checksInOrder st r) with
      | some e => rw [hf] at h; cases h
      | none =>
        rw [hf] at h
        cases i with
        | zero =>
          simp only [List.getElem?_cons_zero, Option.some.injEq] at hx
          subst hx
          simpa using hf
        | succ i =>
          simp only [List.getElem?_cons_succ] at hx
          simpa using (ih _).mp h i x hx
    · intro h
      have h0 := h 0 r (by simp)
      simp only [List.take_zero, List.foldl_nil] at h0
      rw [h0]
      apply (ih _).mpr
      intro i x hx
      simpa using h (i + 1) x (by simpa using hx)

theorem validateLoop_error_iff {F : Type} (st : ValidateState) (p : List (Record F))
    (e : String) :
    validateLoop st p = .error e ↔
      ∃ i r, p[i]? = some r ∧
        (∀ j x, j < i → p[j]? = some x →
          firstFailure (checksInOrder ((p.take j).foldl validateVars st) x) = none) ∧
        firstFailure (checksInOrder ((p.take i).foldl validateVars st) r) = some e := by
  induction p generalizing st with
  | nil => simp [validateLoop]
  | cons r rs ih =>
    rw [validateLoop_cons]
    cases hf : firstFailure (checksInOrder st r) with
    | some e' =>
      constructor
      · intro h
        simp only [Except.error.injEq] at h
        subst h
        exact ⟨0, r, by simp, by intro j x hj; omega, by simpa using hf⟩
      · rintro ⟨i, x, hx, hbefore, hi⟩
        cases i with
        | zero =>
          simp only [List.getElem?_cons_zero, Option.some.injEq] at hx
          subst hx
          simp only [List.take_zero, List.foldl_nil] at hi
          rw [hf] at hi
          simp only [Option.some.injEq] at hi
          rw [hi]
        | succ i =>
          have h0 := hbefore 0 r (by omega) (by simp)
          simp only [List.take_zero, List.foldl_nil] at h0
          rw [hf] at h0
          cases h0
    | none =>
      simp only
      rw [ih]
      constructor
      · rintro ⟨i, x, hx, hbefore, hi⟩
        refine ⟨i + 1, x, by simpa using hx, ?_, by simpa using hi⟩
        intro j y hj hy
        cases j with
        | zero =>
          simp only [List.getElem?_cons_zero, Option.some.injEq] at hy
          subst hy
          simpa using hf
        | succ j =>
          simpa using hbefore j y (by omega) (by simpa using hy)
      · rintro ⟨i, x, hx, hbefore, hi⟩
        cases i with
        | zero =>
          simp only [List.getElem?_cons_zero, Option.some.injEq] at hx
          subst hx
          simp only [List.take_zero, List.foldl_nil] at hi
          rw [hf] at hi
          cases hi
        | succ i =>
          refine ⟨i, x, by simpa using hx, ?_, by simpa using hi⟩
          intro j y hj hy
          simpa using hbefore (j + 1) y (by omega) (by simpa using hy)

theorem hasValueOrSum_iff {F : Type} (r : Record F) :
    hasValueOrSum r ↔ (hasValue r || r.Sum.isSome) = true := by
  unfold hasValueOrSum hasValue
  simp only [length_pos_iff_ne_empty, Bool.or_eq_true, decide_eq_true_eq, or_assoc]

theorem firstFailure_none_iff {F : Type} (st : ValidateState) (r : Record F) :
    firstFailure (checksInOrder st r) = none ↔
      (∃ v, checkVersion st.bver r = .ok v) ∧
        ValidateName ((validateVars st r).bname ++ r.Name) = .ok () ∧
        (valueSlots r).count true ≤ 1 ∧ hasValueOrSum r := by
  rw [hasValueOrSum_iff, ValidateName_eq]
  unfold firstFailure checksInOrder
  cases hv : checkVersion st.bver r with
  | error e => simp
  | ok bver =>
    by_cases hn : (validateVars st r).bname ++ r.Name = ""
    · simp [hn]
    · by_cases hm : MatchString validName ((validateVars st r).bname ++ r.Name) = true
      · by_cases hc : 1 < (valueSlots r).count true
        · simp [hn, hm, hc]
        · by_cases hs : (hasValue r || r.Sum.isSome) = true
          · simp only [hn, hm, hc, hs]
            simp
            omega
          · simp only [hn, hm, hc, hs]
            simp
      · simp [hn, hm]

theorem foldl_validateVars_bname {F : Type} (st : ValidateState) (xs : List (Record F)) :
    (xs.foldl validateVars st).bname =
      lastSuch (fun s => decide (s ≠ "")) st.bname (xs.map (·.BaseName)) := by
  induction xs generalizing st with
  | nil => rfl
  | cons x xs ih =>
    rw [List.foldl_cons, ih, List.map_cons, lastSuch_cons]
    simp only [validateVars, length_pos_iff_ne_empty, decide_eq_true_eq]

theorem checkVersion_zero {F : Type} (bver : Int) (r : Record F) (h : r.BaseVersion = 0) :
    checkVersion bver r = .ok bver := by
  unfold checkVersion
  simp [h]

theorem foldl_validateVars_bver_zero {F : Type} (st : ValidateState) (xs : List (Record F))
    (h : ∀ r ∈ xs, r.BaseVersion = 0) : (xs.foldl validateVars st).bver = st.bver := by
  induction xs generalizing st with
  | nil => rfl
  | cons x xs ih =>
    rw [List.foldl_cons, ih _ (fun r hr => h r (List.mem_cons_of_mem _ hr))]
    simp [validateVars, checkVersion_zero st.bver x (h x (List.mem_cons_self _ _))]

theorem take_succ_of_getElem? {α : Type} (p : List α) (i : Nat) (r : α) (h : p[i]? = some r) :
    p.take (i + 1) = p.take i ++ [r] := by
  rw [List.take_succ, h]
  rfl

theorem validateVars_foldl_take {F : Type} (st : ValidateState) (p : List (Record F)) (i : Nat)
    (r : Record F) (h : p[i]? = some r) :
    validateVars ((p.take i).foldl validateVars st) r = (p.take (i + 1)).foldl validateVars st := by
  rw [take_succ_of_getElem? p i r h, List.foldl_append]
  rfl

/-- C1: for a pack in which every record has baseVersion 0, `Validate` succeeds exactly when
every record (i) has an effective name, the most recent non-empty base name at or before it
followed by its own name, that `ValidateName` accepts, (ii) has at most one of value,
stringValue, dataValue, boolValue populated and (iii) has at least one of these or sum
populated. -/
theorem Validate_ok_iff_of_baseVersion_zero {F : Type} (p : Pack F)
    (hver : ∀ r ∈ p, r.BaseVersion = 0) :
    Validate p = .ok () ↔
      ∀ i r, p[i]? = some r →
        ValidateName (inheritedBaseName p i ++ r.Name) = .ok () ∧
          (valueSlots r).count true ≤ 1 ∧ hasValueOrSum r := by
  unfold Validate
  rw [validateLoop_ok_iff]
  refine forall_congr' fun i => forall_congr' fun r => imp_congr_right fun hr => ?_
  rw [firstFailure_none_iff, validateVars_foldl_take _ p i r hr, foldl_validateVars_bname,
    foldl_validateVars_bver_zero _ _ (fun x hx => hver x (List.mem_of_mem_take hx))]
  have hr0 : r.BaseVersion = 0 := hver r (List.getElem?_mem hr)
  simp only [checkVersion_zero _ r hr0, Except.ok.injEq, exists_eq', true_and]
  rfl

/-- The theorem `Validate_ok_iff_of_baseVersion_zero` at the empty pack and at a pack of one
record that carries a value together with a sum: both validate. -/
theorem Validate_ok_iff_of_baseVersion_zero_witness :
    Validate ([] : Pack Int) = .ok () ∧
      Validate ([{ Record.zeroValue wholeFloat64 with
        Name := "a", Value := some 1, Sum := some 2 }] : Pack Int) = .ok () :=
  ⟨(Validate_ok_iff_of_baseVersion_zero [] (by simp)).mpr (by simp),
    (Validate_ok_iff_of_baseVersion_zero
      [{ Record.zeroValue wholeFloat64 with Name := "a", Value := some 1, Sum := some 2 }]
      (by simp [Record.zeroValue])).mpr (by
        intro i r hr
        cases i with
        | zero =>
          simp only [List.getElem?_cons_zero, Option.some.injEq] at hr
          subst hr
          exact ⟨by decide, by decide, Or.inl rfl⟩
        | succ i => simp at hr)⟩

theorem firstFailure_tooManyValues {F : Type} (st : ValidateState) (r : Record F)
    (hv : ∃ v, checkVersion st.bver r = .ok v)
    (hn : ValidateName ((validateVars st r).bname ++ r.Name) = .ok ())
    (hc : 1 < (valueSlots r).count true) :
    firstFailure (checksInOrder st r) = some errTooManyValues := by
  obtain ⟨v, hv⟩ := hv
  rw [ValidateName_eq] at hn
  unfold firstFailure checksInOrder
  by_cases h1 : (validateVars st r).bname ++ r.Name = ""
  · simp [h1] at hn
  · by_cases h2 : MatchString validName ((validateVars st r).bname ++ r.Name) = true
    · simp [hv, h1, h2, hc]
    · simp [h1, h2] at hn

theorem firstFailure_noValue {F : Type} (st : ValidateState) (r : Record F)
    (hv : ∃ v, checkVersion st.bver r = .ok v)
    (hn : ValidateName ((validateVars st r).bname ++ r.Name) = .ok ())
    (hc : ¬ hasValueOrSum r) :
    firstFailure (checksInOrder st r) = some errNoValue := by
  obtain ⟨v, hv⟩ := hv
  rw [ValidateName_eq] at hn
  have hc1 : ¬ 1 < (valueSlots r).count true := by
    unfold hasValueOrSum at hc
    unfold valueSlots
    by_cases h1 : r.Value.isSome = true <;> by_cases h2 : r.StringValue = "" <;>
      by_cases h3 : r.DataValue = "" <;> by_cases h4 : r.BoolValue.isSome = true <;>
      simp_all
  rw [hasValueOrSum_iff] at hc
  unfold firstFailure checksInOrder
  by_cases h1 : (validateVars st r).bname ++ r.Name = ""
  · simp [h1] at hn
  · by_cases h2 : MatchString validName ((validateVars st r).bname ++ r.Name) = true
    · simp only [hv, h1, h2, hc1, hc]
      simp
    · simp [h1, h2] at hn

theorem getElem?_append_length {α : Type} (pre post : List α) (r : α) :
    (pre ++ r :: post)[pre.length]? = some r := by
  rw [List.getElem?_append_right (Nat.le_refl _)]
  simp

theorem validateLoop_append_error {F : Type} (st : ValidateState) (pre post : List (Record F))
    (r : Record F) (e : String) (hpre : validateLoop st pre = .ok ())
    (hr : firstFailure (checksInOrder (pre.foldl validateVars st) r) = some e) :
    validateLoop st (pre ++ r :: post) = .error e := by
  rw [validateLoop_error_iff]
  refine ⟨pre.length, r, getElem?_append_length pre post r, ?_, by simpa using hr⟩
  intro j x hj hx
  rw [List.getElem?_append_left hj] at hx
  have h := (validateLoop_ok_iff st pre).mp hpre j x hx
  rwa [List.take_append_of_le_length (Nat.le_of_lt hj)]

theorem inheritedBaseName_eq {F : Type} (p : List (Record F)) (i : Nat) (r : Record F)
    (h : p[i]? = some r) :
    inheritedBaseName p i = (validateVars (validateVarsAt p i) r).bname := by
  unfold validateVarsAt
  rw [validateVars_foldl_take _ p i r h, foldl_validateVars_bname]
  rfl

/-- The error of `Validate` in terms of the loop of the code: it is the one of the first turn
that fails a check of the code, and within that turn the one of the first failing check. Hence,
after a prefix that validates, a record that passes the code's version check and has a valid
effective name yields the too-many-values error when both value and stringValue are set, and
the missing-value error when none of value, stringValue, dataValue, boolValue, sum is set. -/
theorem Validate_error_first_failure {F : Type} :
    (∀ (p : Pack F) (e : String),
      Validate p = .error e ↔
        ∃ i r, p[i]? = some r ∧
          (∀ j x, j < i → p[j]? = some x →
            firstFailure (checksInOrder (validateVarsAt p j) x) = none) ∧
          firstFailure (checksInOrder (validateVarsAt p i) r) = some e) ∧
    (∀ (pre post : Pack F) (r : Record F),
      Validate pre = .ok () →
      (∃ v, checkVersion (validateVarsAt pre pre.length).bver r = .ok v) →
      ValidateName (inheritedBaseName (pre ++ r :: post) pre.length ++ r.Name) = .ok () →
      r.Value.isSome = true → r.StringValue ≠ "" →
      Validate (pre ++ r :: post) = .error errTooManyValues) ∧
    (∀ (pre post : Pack F) (r : Record F),
      Validate pre = .ok () →
      (∃ v, checkVersion (validateVarsAt pre pre.length).bver r = .ok v) →
      ValidateName (inheritedBaseName (pre ++ r :: post) pre.length ++ r.Name) = .ok () →
      ¬ hasValueOrSum r →
      Validate (pre ++ r :: post) = .error errNoValue) := by
  refine ⟨fun p e => validateLoop_error_iff _ p e, ?_, ?_⟩
  · intro pre post r hpre hv hn h1 h2
    rw [inheritedBaseName_eq _ _ r (getElem?_append_length pre post r)] at hn
    simp only [validateVarsAt, List.take_length, List.take_left] at hv hn
    refine validateLoop_append_error _ pre post r _ hpre
      (firstFailure_tooManyValues _ r hv hn ?_)
    simp [valueSlots, h1, h2]
  · intro pre post r hpre hv hn h1
    rw [inheritedBaseName_eq _ _ r (getElem?_append_length pre post r)] at hn
    simp only [validateVarsAt, List.take_length, List.take_left] at hv hn
    exact validateLoop_append_error _ pre post r _ hpre (firstFailure_noValue _ r hv hn h1)

/-- The theorem `Validate_error_first_failure` at three packs: a version change from 5 to 6, a
record with value and stringValue, a record with no value and no sum. -/
theorem Validate_error_first_failure_witness :
    Validate [sample 5 "a" 0 (some 1) "", sample 0 "b" 0 (some 1) "", sample 6 "c" 0 (some 1) ""]
        = .error errVersionChange ∧
      Validate [sample 0 "a" 0 (some 1) "", sample 0 "b" 0 (some 1) "x"]
        = .error errTooManyValues ∧
      Validate [sample 0 "a" 0 (some 1) "", sample 0 "b" 0 none ""] = .error errNoValue :=
  ⟨((Validate_error_first_failure (F := Int)).1 _ _).mpr
      ⟨2, sample 6 "c" 0 (some 1) "", rfl,
        by
          intro j x hj hx
          have hj2 : j = 0 ∨ j = 1 := by omega
          rcases hj2 with rfl | rfl
          · simp only [List.getElem?_cons_zero, Option.some.injEq] at hx
            subst hx
            decide
          · simp only [List.getElem?_cons_succ, List.getElem?_cons_zero, Option.some.injEq] at hx
            subst hx
            decide,
        by decide⟩,
    (Validate_error_first_failure (F := Int)).2.1 [sample 0 "a" 0 (some 1) ""] []
      (sample 0 "b" 0 (some 1) "x") (by decide) ⟨-1, by decide⟩ (by decide) (by decide)
      (by decide),
    (Validate_error_first_failure (F := Int)).2.2 [sample 0 "a" 0 (some 1) ""] []
      (sample 0 "b" 0 none "") (by decide) ⟨-1, by decide⟩ (by decide)
      (by simp [hasValueOrSum, sample, Record.zeroValue])⟩

theorem checkVersion_ok {F : Type} (bver v : Int) (r : Record F)
    (h : checkVersion bver r = .ok v) :
    (bver ≠ -1 → v = bver ∧ (r.BaseVersion ≠ 0 → r.BaseVersion = bver)) ∧
      (bver = -1 → r.BaseVersion ≠ 0 → v = r.BaseVersion) ∧
      (bver = -1 → r.BaseVersion = 0 → v = -1) := by
  unfold checkVersion at h
  split_ifs at h with h1 h2 h3 h4 <;> simp_all

theorem validateLoop_versions {F : Type} (st : ValidateState) (p : List (Record F))
    (hno : ∀ r ∈ p, r.BaseVersion ≠ -1) (hok : validateLoop st p = .ok ()) :
    (st.bver ≠ -1 → ∀ r ∈ p, r.BaseVersion ≠ 0 → r.BaseVersion = st.bver) ∧
      (st.bver = -1 → ∀ r1 ∈ p, ∀ r2 ∈ p, r1.BaseVersion ≠ 0 → r2.BaseVersion ≠ 0 →
        r1.BaseVersion = r2.BaseVersion) := by
  induction p generalizing st with
  | nil => simp
  | cons r rs ih =>
    rw [validateLoop_cons] at hok
    cases hf : firstFailure (checksInOrder st r) with
    | some e => rw [hf] at hok; cases hok
    | none =>
      rw [hf] at hok
      obtain ⟨⟨v, hv⟩, _⟩ := (firstFailure_none_iff st r).mp hf
      have hst : (validateVars st r).bver = v := by simp [validateVars, hv]
      have hr1 : r.BaseVersion ≠ -1 := hno r (List.mem_cons_self _ _)
      obtain ⟨ih1, ih2⟩ := ih (validateVars st r)
        (fun x hx => hno x (List.mem_cons_of_mem _ hx)) hok
      rw [hst] at ih1 ih2
      obtain ⟨c1, c2, c3⟩ := checkVersion_ok st.bver v r hv
      constructor
      · intro hb x hx hx0
        obtain ⟨hvb, hrb⟩ := c1 hb
        rcases List.mem_cons.mp hx with hxr | hxs
        · rw [hxr]; rw [hxr] at hx0; exact hrb hx0
        · rw [← hvb]; exact ih1 (by rw [hvb]; exact hb) x hxs hx0
      · intro hb x hx y hy hx0 hy0
        by_cases h0 : r.BaseVersion = 0
        · have hv1 := c3 hb h0
          rcases List.mem_cons.mp hx with hxr | hxs
          · rw [hxr] at hx0; exact absurd h0 hx0
          · rcases List.mem_cons.mp hy with hyr | hys
            · rw [hyr] at hy0; exact absurd h0 hy0
            · exact ih2 hv1 x hxs y hys hx0 hy0
        · have hv1 := c2 hb h0
          have hvne : v ≠ -1 := by rw [hv1]; exact hr1
          have key : ∀ z ∈ r :: rs, z.BaseVersion ≠ 0 → z.BaseVersion = v := by
            intro z hz hz0
            rcases List.mem_cons.mp hz with hzr | hzs
            · rw [hzr, hv1]
            · exact ih1 hvne z hzs hz0
          exact (key x hx hx0).trans (key y hy hy0).symm

/-- Apart from the version -1, the version check does what it is meant to do: a pack without a
baseVersion of -1 validates only if all its non-zero baseVersion values are equal. -/
theorem Validate_versions_agree {F : Type} (p : Pack F) (hno : ∀ r ∈ p, r.BaseVersion ≠ -1)
    (hok : Validate p = .ok ()) (r1 r2 : Record F) (h1 : r1 ∈ p) (h2 : r2 ∈ p)
    (h10 : r1.BaseVersion ≠ 0) (h20 : r2.BaseVersion ≠ 0) :
    r1.BaseVersion = r2.BaseVersion :=
  (validateLoop_versions _ p hno hok).2 rfl r1 h1 r2 h2 h10 h20

/-- C2, the code at the failing input: `Validate` accepts a pack whose two records declare the
different non-zero versions -1 and 7. The variable `bver` starts at -1 for "no version seen
yet", so that the version -1 of the first record is not remembered. -/
theorem Validate_version_minus_one :
    Validate [sample (-1) "a" 0 (some 1) "", sample 7 "b" 0 (some 1) ""] = .ok () := by
  decide

theorem validName_fullMatch_eq (s : List Char) : validName.fullMatch s = specNameOk s := by
  rw [Bool.eq_iff_iff, validName_fullMatch_iff]
  cases s with
  | nil => simp [specNameOk]
  | cons c rest =>
    simp only [specNameOk, List.cons.injEq, Bool.and_eq_true, List.all_eq_true, Bool.or_eq_true,
      decide_eq_true_eq]
    constructor
    · rintro ⟨c', rest', ⟨rfl, rfl⟩, hc, hrest⟩
      exact ⟨hc, hrest⟩
    · rintro ⟨hc, hrest⟩
      exact ⟨c, rest, ⟨rfl, rfl⟩, hc, hrest⟩

theorem foldl_validateVars_bver {F : Type} (st : ValidateState) (pre : List (Record F))
    (hno : ∀ r ∈ pre, r.BaseVersion ≠ -1) :
    (pre.foldl validateVars st).bver =
      if st.bver = -1 then
        ((pre.map (·.BaseVersion)).find? (fun v => decide (v ≠ 0))).getD (-1)
      else st.bver := by
  induction pre generalizing st with
  | nil => by_cases h : st.bver = -1 <;> simp [h]
  | cons x pre ih =>
    have hx : x.BaseVersion ≠ -1 := hno x (List.mem_cons_self _ _)
    rw [List.foldl_cons, ih _ (fun r hr => hno r (List.mem_cons_of_mem _ hr))]
    by_cases hb : st.bver = -1
    · by_cases h0 : x.BaseVersion = 0
      · simp [validateVars, checkVersion, hb, h0]
      · simp [validateVars, checkVersion, hb, h0, hx]
    · by_cases h0 : x.BaseVersion = 0
      · simp [validateVars, checkVersion, hb, h0]
      · by_cases h1 : x.BaseVersion = st.bver
        · simp [validateVars, checkVersion, hb, h0, h1]
        · simp [validateVars, checkVersion, hb, h0, h1]

theorem checksInOrder_eq_specChecks {F : Type} (p : Pack F) (i : Nat) (r : Record F)
    (hno : ∀ x ∈ p, x.BaseVersion ≠ -1) (hr : p[i]? = some r) :
    checksInOrder (validateVarsAt p i) r = specChecks p i r := by
  have hbver : (validateVarsAt p i).bver = (seenVersion p i).getD (-1) := by
    unfold validateVarsAt seenVersion
    rw [foldl_validateVars_bver _ _ (fun x hx => hno x (List.mem_of_mem_take hx))]
    simp
  have hname : (validateVars (validateVarsAt p i) r).bname = inheritedBaseName p i :=
    (inheritedBaseName_eq p i r hr).symm
  have hver : (match checkVersion (validateVarsAt p i).bver r with
      | .ok _ => none
      | .error e => some e) =
      (match seenVersion p i with
      | some v => if r.BaseVersion ≠ 0 ∧ r.BaseVersion ≠ v then some errVersionChange else none
      | none => none) := by
    rw [hbver]
    cases hs : seenVersion p i with
    | none => by_cases h0 : r.BaseVersion = 0 <;> simp [checkVersion, h0]
    | some v =>
      have hv : v ∈ (p.take i).map (·.BaseVersion) := List.mem_of_find?_eq_some hs
      obtain ⟨x, hx, hxv⟩ := List.mem_map.mp hv
      have hv1 : v ≠ -1 := by
        rw [← hxv]
        exact hno x (List.mem_of_mem_take hx)
      by_cases h0 : r.BaseVersion = 0
      · simp [checkVersion, h0, hv1]
      · by_cases h1 : r.BaseVersion = v
        · simp [checkVersion, h0, h1, hv1]
        · simp [checkVersion, h0, h1, hv1]
  have hsum : (hasValue r || r.Sum.isSome) = true ↔
      (r.Value.isSome = true ∨ r.StringValue ≠ "" ∨ r.DataValue ≠ "" ∨
        r.BoolValue.isSome = true ∨ r.Sum.isSome = true) := (hasValueOrSum_iff r).symm
  unfold checksInOrder specChecks
  simp only [hname, hver, MatchString, validName_fullMatch_eq]
  by_cases hs : (hasValue r || r.Sum.isSome) = true
  · simp only [hs, if_true, hsum.mp hs]
  · simp only [hs, if_false, mt hsum.mpr hs, Bool.false_eq_true]

/-- Apart from the version -1, the error of `Validate` is the one that the order of the
specification demands: for a pack without a baseVersion of -1, `Validate` fails with `e`
exactly when some record has `e` as its first failing check, in the order version conflict,
empty name, invalid name, too many values, missing value, and every record before it passes
all five checks. -/
theorem Validate_error_first_spec_failure {F : Type} (p : Pack F)
    (hno : ∀ x ∈ p, x.BaseVersion ≠ -1) (e : String) :
    Validate p = .error e ↔
      ∃ i r, p[i]? = some r ∧
        (∀ j x, j < i → p[j]? = some x → firstFailure (specChecks p j x) = none) ∧
        firstFailure (specChecks p i r) = some e := by
  unfold Validate
  rw [validateLoop_error_iff]
  constructor
  · rintro ⟨i, r, hr, hbefore, hi⟩
    refine ⟨i, r, hr, ?_, ?_⟩
    · intro j x hj hx
      rw [← checksInOrder_eq_specChecks p j x hno hx]
      exact hbefore j x hj hx
    · rw [← checksInOrder_eq_specChecks p i r hno hr]
      exact hi
  · rintro ⟨i, r, hr, hbefore, hi⟩
    refine ⟨i, r, hr, ?_, ?_⟩
    · intro j x hj hx
      have h := hbefore j x hj hx
      rw [← checksInOrder_eq_specChecks p j x hno hx] at h
      exact h
    · rw [← checksInOrder_eq_specChecks p i r hno hr] at hi
      exact hi

/-- C3, the code at the failing input: in `minusOnePack` the first record declares the version
-1 and passes all checks, and the second declares the version 7 and has no value and no sum.
Its first failing check in the order of the claim is the version conflict; `Validate` returns
the missing-value error. The variable `bver` starts at -1 for "no version seen yet", so that
the version -1 is not remembered and the version check of the second record does not fail. -/
theorem Validate_error_misses_version_conflict :
    Validate minusOnePack = .error errNoValue ∧
      firstFailure (specChecks minusOnePack 0
        { Record.zeroValue wholeFloat64 with BaseVersion := -1, Name := "a", Value := some 1 })
        = none ∧
      firstFailure (specChecks minusOnePack 1
        { Record.zeroValue wholeFloat64 with BaseVersion := 7, Name := "b" })
        = some errVersionChange := by
  decide

/-! ## `Normalize` -/

theorem foldl_count {F : Type} (xs : List (Record F)) (n : Nat) :
    xs.foldl (fun t r => if hasValue r then t + 1 else t) n =
      n + (xs.filter hasValue).length := by
  induction xs generalizing n with
  | nil => rfl
  | cons x xs ih =>
    rw [List.foldl_cons, ih]
    by_cases h : hasValue x = true
    · simp [h]; omega
    · simp [h]

theorem countRecords_eq {F : Type} (p : Pack F) :
    countRecords p = (p.filter hasValue).length := by
  unfold countRecords
  rw [foldl_count, Nat.zero_add]

theorem set_append_length {α : Type} (done rest : List α) (x out : α) :
    (done ++ x :: rest).set done.length out = done ++ out :: rest := by
  induction done with
  | nil => rfl
  | cons d done ih => simp [ih]

theorem normalizeRecord_eq {F : Type} (lib : Float64 F) (now : F) (b : BaseValues F)
    (ret : List (Record F)) (n : Nat) (r : Record F) :
    normalizeRecord lib now
        { bname := b.bname, btime := b.btime, bunit := b.bunit, ver := b.ver,
          ret := ret, numRecords := n } r =
      { bname := (b.next lib r).bname, btime := (b.next lib r).btime,
        bunit := (b.next lib r).bunit, ver := (b.next lib r).ver,
        ret := if hasValue r then ret.set n (resolve lib now (b.next lib r) r) else ret,
        numRecords := if hasValue r then n + 1 else n } := by
  unfold normalizeRecord resolve absoluteTime BaseValues.next
  by_cases hu : r.Unit.length = 0 <;>
    by_cases ht : lib.lt (lib.add (if !lib.isZero r.BaseTime then r.BaseTime else b.btime)
      r.Time) (lib.ofInt pivot) = true <;>
    by_cases hv : hasValue r = true <;>
    simp [hu, ht, hv, hasValue] <;> simp_all [hasValue]

theorem foldl_normalizeRecord_ret {F : Type} (lib : Float64 F) (now : F)
    (xs : List (Record F)) (b : BaseValues F) (done : List (Record F)) (k : Nat)
    (z : Record F) :
    (xs.foldl (normalizeRecord lib now)
        { bname := b.bname, btime := b.btime, bunit := b.bunit, ver := b.ver,
          ret := done ++ List.replicate ((xs.filter hasValue).length + k) z,
          numRecords := done.length }).ret =
      done ++ normalizeFrom lib now b xs ++ List.replicate k z := by
  induction xs generalizing b done with
  | nil => simp [normalizeFrom]
  | cons x xs ih =>
    rw [List.foldl_cons, normalizeRecord_eq]
    by_cases hv : hasValue x = true
    · have h1 : ((x :: xs).filter hasValue).length + k =
          ((xs.filter hasValue).length + k) + 1 := by
        simp [List.filter_cons, hv]; omega
      have h2 := ih (b.next lib x) (done ++ [resolve lib now (b.next lib x) x])
      simp only [List.length_append, List.length_singleton, List.append_assoc,
        List.singleton_append] at h2
      simp only [hv, if_true, h1, List.replicate_succ, set_append_length, normalizeFrom, h2,
        List.cons_append]
      simp
    · have h1 : ((x :: xs).filter hasValue).length = (xs.filter hasValue).length := by
        simp [List.filter_cons, hv]
      simp only [hv, h1, normalizeFrom, Bool.false_eq_true, if_false]
      exact ih (b.next lib x) done

theorem Normalize_eq_normalizeFrom {F : Type} (lib : Float64 F) (now : F) (p : Pack F) :
    Normalize lib now p = normalizeFrom lib now (BaseValues.initial lib) p := by
  unfold Normalize
  have h := foldl_normalizeRecord_ret lib now p (BaseValues.initial lib) [] 0
    (Record.zeroValue lib)
  simp only [Nat.add_zero, List.nil_append, List.length_nil, List.replicate_zero,
    List.append_nil] at h
  rw [countRecords_eq]
  exact h

theorem normalizeFrom_append {F : Type} (lib : Float64 F) (now : F) (b : BaseValues F)
    (pre post : List (Record F)) :
    normalizeFrom lib now b (pre ++ post) =
      normalizeFrom lib now b pre ++
        normalizeFrom lib now (pre.foldl (BaseValues.next lib) b) post := by
  induction pre generalizing b with
  | nil => rfl
  | cons x pre ih =>
    by_cases hv : hasValue x = true
    · simp [normalizeFrom, hv, ih]
    · simp [normalizeFrom, hv, ih]

theorem length_normalizeFrom {F : Type} (lib : Float64 F) (now : F) (b : BaseValues F)
    (xs : List (Record F)) :
    (normalizeFrom lib now b xs).length = (xs.filter hasValue).length := by
  induction xs generalizing b with
  | nil => rfl
  | cons x xs ih =>
    by_cases hv : hasValue x = true
    · simp [normalizeFrom, hv, ih]
    · simp [normalizeFrom, hv, ih]

theorem foldl_next_eq {F : Type} (lib : Float64 F) (b : BaseValues F) (xs : List (Record F)) :
    xs.foldl (BaseValues.next lib) b =
      { bname := lastSuch (fun s => decide (s ≠ "")) b.bname (xs.map (·.BaseName))
        btime := lastSuch (fun t => !lib.isZero t) b.btime (xs.map (·.BaseTime))
        bunit := lastSuch (fun s => decide (s ≠ "")) b.bunit (xs.map (·.BaseUnit))
        ver := lastSuch (fun v => decide (v ≠ 0)) b.ver (xs.map (·.BaseVersion)) } := by
  induction xs generalizing b with
  | nil => rfl
  | cons x xs ih =>
    rw [List.foldl_cons, ih]
    simp only [List.map_cons, lastSuch_cons, BaseValues.next, length_pos_iff_ne_empty,
      decide_eq_true_eq]

theorem inheritedBase_eq {F : Type} (lib : Float64 F) (p : Pack F) (i : Nat) :
    inheritedBase lib p i = (p.take (i + 1)).foldl (BaseValues.next lib) (BaseValues.initial lib) := by
  rw [foldl_next_eq]
  rfl

theorem next_foldl_take {F : Type} (lib : Float64 F) (p : Pack F) (i : Nat) (r : Record F)
    (h : p[i]? = some r) :
    ((p.take i).foldl (BaseValues.next lib) (BaseValues.initial lib)).next lib r =
      inheritedBase lib p i := by
  rw [inheritedBase_eq, take_succ_of_getElem? p i r h, List.foldl_append]
  rfl

theorem eq_take_append_cons_drop {α : Type} (p : List α) (i : Nat) (r : α)
    (h : p[i]? = some r) : p = p.take i ++ r :: p.drop (i + 1) := by
  have hi : i < p.length := by
    by_contra hn
    rw [List.getElem?_eq_none (Nat.le_of_not_lt hn)] at h
    cases h
  have hr : p[i] = r := by
    rw [List.getElem?_eq_getElem hi] at h
    exact Option.some.inj h
  rw [← hr, ← List.drop_eq_getElem_cons hi, List.take_append_drop]

theorem Normalize_getElem? {F : Type} (lib : Float64 F) (now : F) (p : Pack F) (i : Nat)
    (r : Record F) (hr : p[i]? = some r) (hv : hasValue r = true) :
    (Normalize lib now p)[countRecords (p.take i)]? =
      some (resolve lib now (inheritedBase lib p i) r) := by
  rw [Normalize_eq_normalizeFrom, countRecords_eq,
    ← length_normalizeFrom lib now (BaseValues.initial lib) (p.take i)]
  conv_lhs => arg 1; rw [eq_take_append_cons_drop p i r hr]
  rw [normalizeFrom_append, List.getElem?_append_right (Nat.le_refl _), Nat.sub_self]
  simp only [normalizeFrom, hv, if_true, List.getElem?_cons_zero, next_foldl_take lib p i r hr]

theorem inheritedBase_append_of_lt {F : Type} (lib : Float64 F) (q post : Pack F) (i : Nat)
    (hi : i < q.length) : inheritedBase lib (q ++ post) i = inheritedBase lib q i := by
  rw [inheritedBase_eq, inheritedBase_eq, List.take_append_of_le_length (Nat.succ_le_of_lt hi)]

theorem normalizeFrom_eq_map_enum {F : Type} (lib : Float64 F) (now : F) (p : Pack F) :
    normalizeFrom lib now (BaseValues.initial lib) p =
      (p.enum.filter (fun x => hasValue x.2)).map
        (fun x => resolve lib now (inheritedBase lib p x.1) x.2) := by
  induction p using List.reverseRecOn with
  | nil => rfl
  | append_singleton q r ih =>
    rw [normalizeFrom_append, ih, List.enum_append, List.filter_append, List.map_append,
      List.enumFrom_singleton]
    congr 1
    · apply List.map_congr_left
      intro x hx
      have hx1 : x.1 < q.length := List.fst_lt_of_mem_enum (List.mem_of_mem_filter hx)
      rw [inheritedBase_append_of_lt lib q [r] x.1 hx1]
    · have h := next_foldl_take lib (q ++ [r]) q.length r (getElem?_append_length q [] r)
      rw [List.take_left] at h
      by_cases hv : hasValue r = true
      · simp [normalizeFrom, hv, h]
      · simp [normalizeFrom, hv]

/-- C5: the record that `Normalize` outputs for an input record `r` with a value (record `i` of
the pack; it comes after the outputs of the records with a value before it) has the name of `r`
after the inherited base name, the unit of `r` or else the inherited base unit, the time made
from the inherited base time plus the time of `r`, the inherited version or else 5 as
baseVersion, the fields baseName, baseTime and baseUnit cleared, and updateTime, value,
stringValue, dataValue, boolValue and sum as in `r`. Inherited is the most recent non-empty
(non-zero) base value at or before `r`. -/
theorem Normalize_record_fields {F : Type} (lib : Float64 F) (now : F) (p : Pack F) (i : Nat)
    (r : Record F) (hr : p[i]? = some r) (hv : hasValue r = true) :
    ∃ out, (Normalize lib now p)[((p.take i).filter hasValue).length]? = some out ∧
      out.Name = inheritedBaseName p i ++ r.Name ∧
      out.Unit = (if r.Unit ≠ "" then r.Unit else inheritedBaseUnit p i) ∧
      out.Time = absoluteTime lib now (lib.add (inheritedBaseTime lib p i) r.Time) ∧
      out.BaseVersion = inheritedVersion p i ∧
      out.BaseName = "" ∧ out.BaseTime = lib.zero ∧ out.BaseUnit = "" ∧
      out.UpdateTime = r.UpdateTime ∧ out.Value = r.Value ∧
      out.StringValue = r.StringValue ∧ out.DataValue = r.DataValue ∧
      out.BoolValue = r.BoolValue ∧ out.Sum = r.Sum := by
  refine ⟨resolve lib now (inheritedBase lib p i) r, ?_, rfl, ?_, rfl, rfl, rfl, rfl, rfl, rfl,
    rfl, rfl, rfl, rfl, rfl⟩
  · rw [← countRecords_eq]
    exact Normalize_getElem? lib now p i r hr hv
  · simp only [resolve, inheritedBase, length_eq_zero_iff_eq_empty]
    by_cases hu : r.Unit = "" <;> simp [hu]

/-- The theorem `Normalize_record_fields` at the second record of a pack whose first record,
which has only a base name, a base version and a sum, is dropped. -/
theorem Normalize_record_fields_witness :
    ∃ out, (Normalize wholeFloat64 1000
        [{ sample 7 "" 0 none "" with BaseName := "dev", BaseTime := 50, Sum := some 3 },
          sample 0 "temp" 2 (some 1) ""])[0]? = some out ∧
      out.Name = "devtemp" ∧ out.Time = 1052 ∧ out.BaseVersion = 7 ∧ out.Value = some 1 := by
  obtain ⟨out, h, hname, _, htime, hver, _, _, _, _, hval, _⟩ :=
    Normalize_record_fields wholeFloat64 1000
      [{ sample 7 "" 0 none "" with BaseName := "dev", BaseTime := 50, Sum := some 3 },
        sample 0 "temp" 2 (some 1) ""] 1 (sample 0 "temp" 2 (some 1) "") rfl rfl
  exact ⟨out, h, hname.trans (by decide), htime.trans (by decide), hver.trans (by decide),
    hval.trans (by decide)⟩

/-- C6: the output of `Normalize` has one record for each input record that has value,
stringValue, dataValue or boolValue populated, in the order of the input, and none for the
other records; each is the input record resolved with what it inherits from all the records at
or before it, the dropped ones included: after a dropped record `d` the loop goes on from the
base values as `d` has overridden them. -/
theorem Normalize_kept_records {F : Type} (lib : Float64 F) (now : F) (p : Pack F) :
    (Normalize lib now p).length = (p.filter hasValue).length ∧
      Normalize lib now p =
        (p.enum.filter (fun x => hasValue x.2)).map
          (fun x => resolve lib now (inheritedBase lib p x.1) x.2) ∧
      ∀ (pre post : Pack F) (d : Record F), p = pre ++ d :: post → hasValue d = false →
        Normalize lib now p =
          Normalize lib now pre ++
            normalizeFrom lib now (inheritedBase lib p pre.length) post := by
  refine ⟨?_, ?_, ?_⟩
  · rw [Normalize_eq_normalizeFrom]
    exact length_normalizeFrom lib now _ p
  · rw [Normalize_eq_normalizeFrom]
    exact normalizeFrom_eq_map_enum lib now p
  · intro pre post d hp hd
    subst hp
    have h := next_foldl_take lib (pre ++ d :: post) pre.length d
      (getElem?_append_length _ _ _)
    rw [List.take_left] at h
    rw [Normalize_eq_normalizeFrom, Normalize_eq_normalizeFrom, ← h, normalizeFrom_append]
    simp [normalizeFrom, hd]

/-- The theorem `Normalize_kept_records` at a pack whose first record has only a base name and
a sum: it is dropped, and the record after it gets the base name. -/
theorem Normalize_kept_records_witness :
    Normalize wholeFloat64 1000
        [{ sample 0 "" 0 none "" with BaseName := "dev", Sum := some 3 },
          sample 0 "temp" 268435456 (some 1) ""] =
      [{ sample 5 "devtemp" 268435456 (some 1) "" with BaseName := "" }] :=
  ((Normalize_kept_records wholeFloat64 1000
      [{ sample 0 "" 0 none "" with BaseName := "dev", Sum := some 3 },
        sample 0 "temp" 268435456 (some 1) ""]).2.2 []
      [sample 0 "temp" 268435456 (some 1) ""]
      { sample 0 "" 0 none "" with BaseName := "dev", Sum := some 3 } rfl rfl).trans
    (by decide)

/-- C7: for a record kept by `Normalize`, with `t` the inherited base time plus the time of the
record: when `t < 2^28` the output time is `now + t`, with the one `now` of the call, and
when `t` is not below `2^28` the output time is `t`. -/
theorem Normalize_time_pivot {F : Type} (lib : Float64 F) (now : F) (p : Pack F) (i : Nat)
    (r : Record F) (hr : p[i]? = some r) (hv : hasValue r = true) :
    ∃ out, (Normalize lib now p)[((p.take i).filter hasValue).length]? = some out ∧
      (lib.lt (lib.add (inheritedBaseTime lib p i) r.Time) (lib.ofInt 268435456) = true →
        out.Time = lib.add now (lib.add (inheritedBaseTime lib p i) r.Time)) ∧
      (lib.lt (lib.add (inheritedBaseTime lib p i) r.Time) (lib.ofInt 268435456) = false →
        out.Time = lib.add (inheritedBaseTime lib p i) r.Time) := by
  refine ⟨resolve lib now (inheritedBase lib p i) r, ?_, ?_, ?_⟩
  · rw [← countRecords_eq]
    exact Normalize_getElem? lib now p i r hr hv
  · intro h
    simp [resolve, absoluteTime, inheritedBase, pivot, h]
  · intro h
    simp [resolve, absoluteTime, inheritedBase, pivot, h]

/-- The theorem `Normalize_time_pivot` at the boundary: with `now = 1000`, a time of
`2^28 - 1` becomes `2^28 - 1 + 1000` and a time of `2^28` stays. -/
theorem Normalize_time_pivot_witness :
    (∃ out, (Normalize wholeFloat64 1000
        [sample 0 "a" 268435455 (some 1) "", sample 0 "b" 268435456 (some 1) ""])[0]? = some out ∧
      out.Time = 268436455) ∧
    (∃ out, (Normalize wholeFloat64 1000
        [sample 0 "a" 268435455 (some 1) "", sample 0 "b" 268435456 (some 1) ""])[1]? = some out ∧
      out.Time = 268435456) := by
  obtain ⟨out0, h0, hlt0, _⟩ := Normalize_time_pivot wholeFloat64 1000
    [sample 0 "a" 268435455 (some 1) "", sample 0 "b" 268435456 (some 1) ""] 0
    (sample 0 "a" 268435455 (some 1) "") rfl rfl
  obtain ⟨out1, h1, _, hge1⟩ := Normalize_time_pivot wholeFloat64 1000
    [sample 0 "a" 268435455 (some 1) "", sample 0 "b" 268435456 (some 1) ""] 1
    (sample 0 "b" 268435456 (some 1) "") rfl rfl
  exact ⟨⟨out0, h0, (hlt0 (by decide)).trans (by decide)⟩,
    ⟨out1, h1, (hge1 (by decide)).trans (by decide)⟩⟩

theorem normalizeFrom_normal {F : Type} (lib : Float64 F) (now : F) (b : BaseValues F)
    (xs : List (Record F)) (hb : b.ver ≠ 0) :
    ∀ out ∈ normalizeFrom lib now b xs,
      out.BaseName = "" ∧ out.BaseTime = lib.zero ∧ out.BaseUnit = "" ∧ out.BaseVersion ≠ 0 ∧
        hasValue out = true := by
  induction xs generalizing b with
  | nil => intro out h; cases h
  | cons x xs ih =>
    have hb1 : (b.next lib x).ver ≠ 0 := by
      unfold BaseValues.next
      by_cases hx : x.BaseVersion = 0 <;> simp [hx, hb]
    intro out hout
    by_cases hv : hasValue x = true
    · simp only [normalizeFrom, hv, if_true, List.mem_cons] at hout
      rcases hout with rfl | hout
      · exact ⟨rfl, rfl, rfl, hb1, hv⟩
      · exact ih _ hb1 out hout
    · simp only [normalizeFrom, hv, Bool.false_eq_true, if_false] at hout
      exact ih _ hb1 out hout

theorem normalizeFrom_fixed {F : Type} (lib : Float64 F) (now : F)
    (hzero : lib.isZero lib.zero = true)
    (hadd : ∀ x, lib.lt x (lib.ofInt 268435456) = false → lib.add lib.zero x = x)
    (q : List (Record F)) (b : BaseValues F)
    (hb : b.bname = "" ∧ b.btime = lib.zero ∧ b.bunit = "")
    (hq : ∀ out ∈ q, (out.BaseName = "" ∧ out.BaseTime = lib.zero ∧ out.BaseUnit = "" ∧
      out.BaseVersion ≠ 0 ∧ hasValue out = true) ∧
      lib.lt out.Time (lib.ofInt 268435456) = false) :
    normalizeFrom lib now b q = q := by
  induction q generalizing b with
  | nil => rfl
  | cons x q ih =>
    obtain ⟨⟨h1, h2, h3, h4, h5⟩, h6⟩ := hq x (List.mem_cons_self _ _)
    obtain ⟨hb1, hb2, hb3⟩ := hb
    have hn : b.next lib x = { bname := "", btime := lib.zero, bunit := "", ver := x.BaseVersion } := by
      unfold BaseValues.next
      simp [h1, h2, h3, h4, hb1, hb2, hb3, hzero]
    have hu : (if x.Unit.length = 0 then "" else x.Unit) = x.Unit := by
      by_cases hx : x.Unit.length = 0
      · simp [hx, ((length_eq_zero_iff_eq_empty x.Unit).mp hx)]
      · simp [hx]
    have hres : resolve lib now (b.next lib x) x = x := by
      rw [hn]
      unfold resolve absoluteTime
      simp only [hadd x.Time h6, pivot, h6, hu, Bool.false_eq_true, if_false]
      cases x
      simp_all
    simp only [normalizeFrom, h5, if_true, hres]
    rw [ih _ (by rw [hn]; exact ⟨rfl, rfl, rfl⟩) (fun out ho => hq out (List.mem_cons_of_mem _ ho))]

/-- C8, as amended: when every record of `Normalize(p)` has a time that is not below `2^28`,
`Normalize(Normalize(p))` is `Normalize(p)`, all fields included, for the same `now`; for a
float64 zero, `0 == 0` holds and `0 + x` is `x` for such times `x`. -/
theorem Normalize_idempotent_of_absolute {F : Type} (lib : Float64 F) (now : F) (p : Pack F)
    (hzero : lib.isZero lib.zero = true)
    (hadd : ∀ x, lib.lt x (lib.ofInt 268435456) = false → lib.add lib.zero x = x)
    (habs : ∀ out ∈ Normalize lib now p, lib.lt out.Time (lib.ofInt 268435456) = false) :
    Normalize lib now (Normalize lib now p) = Normalize lib now p := by
  rw [Normalize_eq_normalizeFrom lib now (Normalize lib now p)]
  apply normalizeFrom_fixed lib now hzero hadd _ _ ⟨rfl, rfl, rfl⟩
  intro out hout
  refine ⟨?_, habs out hout⟩
  rw [Normalize_eq_normalizeFrom] at hout
  exact normalizeFrom_normal lib now _ p (by simp [BaseValues.initial]) out hout

/-- The theorem `Normalize_idempotent_of_absolute` at a record five seconds before a `now`
above `2^28`. -/
theorem Normalize_idempotent_of_absolute_witness :
    Normalize wholeFloat64 1700000000
        (Normalize wholeFloat64 1700000000 [sample 0 "a" (-5) (some 1) ""]) =
      Normalize wholeFloat64 1700000000 [sample 0 "a" (-5) (some 1) ""] :=
  Normalize_idempotent_of_absolute wholeFloat64 1700000000 [sample 0 "a" (-5) (some 1) ""]
    (by decide) (fun x _ => Int.zero_add x) (by decide)

/-- C8 as stated fails: with `now = 1700000000`, a record whose time is 1600000000 seconds
before `now` gets the time 100000000, which is below `2^28`; a second `Normalize` takes it
for a relative time and adds `now` again. -/
theorem Normalize_not_idempotent :
    Normalize wholeFloat64 1700000000
        (Normalize wholeFloat64 1700000000 [sample 0 "a" (-1600000000) (some 1) ""]) ≠
      Normalize wholeFloat64 1700000000 [sample 0 "a" (-1600000000) (some 1) ""] := by
  decide

/-! ## The CSV codec -/

theorem writeRow_eq {F : Type} (lib : Float64 F) (r : Record F) :
    writeRow lib r =
      [lib.formatFloat r.Time, lib.formatFloat r.UpdateTime, r.Name, r.Unit,
        (match r.Value with
          | some v => lib.formatFloat v
          | none => ""),
        r.StringValue,
        (match r.BoolValue with
          | some b => formatBool b
          | none => ""),
        r.DataValue,
        (match r.Sum with
          | some v => lib.formatFloat v
          | none => "")] := by
  unfold writeRow
  cases r.Value <;> cases r.BoolValue <;> cases r.Sum <;> rfl

theorem readRecord_writeRow_error {F : Type} (lib : Float64 F) (r : Record F) (e : String)
    (hempty : lib.parseFloat "" = .error e) (hsum : r.Sum = none) :
    ∃ e', readRecord lib (writeRow lib r) = .error e' := by
  rw [writeRow_eq, hsum]
  unfold readRecord
  cases h0 : lib.parseFloat (lib.formatFloat r.Time) with
  | error e0 => exact ⟨e0, by simp [cell, Outcome.bind, Outcome.ofExcept, h0]⟩
  | ok t => exact ⟨e, by simp [cell, Outcome.bind, Outcome.ofExcept, h0, hempty]⟩

theorem stringsJoin_csvHeaderRow : stringsJoin csvHeaderRow "," = CSVHeader := by decide

/-- C9, the code on the failing inputs: whatever the float64 library, as long as it rejects the
empty text, rejects `degC` and parses `946684799` and `0` (as strconv does), decoding the rows
that `EncodeCSV` wrote for a pack whose first record has no sum returns an error, without or
with the header, and so does decoding the reference CSV of the test. `ReadCSV` takes cell 8 for
Update Time, cells 1 to 7 for Name, Unit, Value, String Value, Boolean Value, Data Value, Sum. -/
theorem DecodeCSV_EncodeCSV_error {F : Type} (lib : Float64 F) (now : F) (e e' : String)
    (t u : F) (hempty : lib.parseFloat "" = .error e) (hdegC : lib.parseFloat "degC" = .error e')
    (htime : lib.parseFloat "946684799" = .ok t) (hzero : lib.parseFloat "0" = .ok u) :
    (∀ (r : Record F) (rest : Pack F), r.Sum = none →
      (∃ err, DecodeCSV lib (csvText (EncodeCSV lib now (r :: rest) [])) [] = .error err) ∧
      (∃ err, DecodeCSV lib (csvText (EncodeCSV lib now (r :: rest) [WithHeader])) [WithHeader]
        = .error err)) ∧
    DecodeCSV lib (csvText referenceCsv) [] = .error e' := by
  refine ⟨?_, ?_⟩
  · intro r rest hsum
    obtain ⟨err, herr⟩ := readRecord_writeRow_error lib r e hempty hsum
    constructor
    · refine ⟨err, ?_⟩
      simp [DecodeCSV, ReadCSV, EncodeCSV, WriteCSV, csvText, applyOptions, readLoop, herr,
        Outcome.bind]
    · refine ⟨err, ?_⟩
      simp [DecodeCSV, ReadCSV, EncodeCSV, WriteCSV, csvText, applyOptions, readLoop, herr,
        Outcome.bind, WithHeader, stringsJoin_csvHeaderRow]
  · simp [DecodeCSV, ReadCSV, referenceCsv, csvText, applyOptions, readLoop, readRecord, cell,
      Outcome.bind, Outcome.ofExcept, htime, hzero, hdegC]

/-- The theorem `DecodeCSV_EncodeCSV_error` at the whole-number instance and the pack of
`ExampleEncodeCSV`. -/
theorem DecodeCSV_EncodeCSV_error_witness :
    (∃ err, DecodeCSV wholeFloat64 (csvText (EncodeCSV wholeFloat64 0 examplePack [])) []
      = .error err) ∧
    DecodeCSV wholeFloat64 (csvText referenceCsv) [] = .error (parseFloatSyntaxError "degC") :=
  have h := DecodeCSV_EncodeCSV_error wholeFloat64 0 (parseFloatSyntaxError "")
    (parseFloatSyntaxError "degC") 946684799 0 (by decide) (by decide) (by decide) (by decide)
  ⟨(h.1 _ _ rfl).1, h.2⟩

/-- C10, the code on a row of nine cells: `ReadCSV` takes cell 0 for Time, cell 8 for Update
Time, cell 1 for Name, cell 2 for Unit, cell 3 for Value, cell 4 for String Value, cell 5 for
Boolean Value, cell 6 for Data Value and cell 7 for Sum; here on a row whose cells 3, 5 and 7
are empty. The header and `WriteCSV` have Update Time in cell 1 and Sum in cell 8. -/
theorem readRecord_cells {F : Type} (lib : Float64 F) (c0 c1 c2 c4 c6 c8 : String) (t u : F)
    (h0 : lib.parseFloat c0 = .ok t) (h8 : lib.parseFloat c8 = .ok u) :
    readRecord lib [c0, c1, c2, "", c4, "", c6, "", c8] =
      .ok { Record.zeroValue lib with
        Time := t, UpdateTime := u, Name := c1, Unit := c2, StringValue := c4,
        DataValue := c6 } ∧
    ReadCSV lib [.ok [c0, c1, c2, "", c4, "", c6, "", c8]] [] =
      .ok [{ Record.zeroValue lib with
        Time := t, UpdateTime := u, Name := c1, Unit := c2, StringValue := c4,
        DataValue := c6 }] := by
  have h : readRecord lib [c0, c1, c2, "", c4, "", c6, "", c8] =
      .ok { Record.zeroValue lib with
        Time := t, UpdateTime := u, Name := c1, Unit := c2, StringValue := c4,
        DataValue := c6 } := by
    simp [readRecord, cell, Outcome.bind, Outcome.ofExcept, h0, h8, Record.zeroValue]
  exact ⟨h, by simp [ReadCSV, applyOptions, readLoop, h, Outcome.bind]⟩

/-- The theorem `readRecord_cells` at the row `1,2,n,,5,,,,3`, which under the header is time 1,
update time 2, name `n`, value 5 and sum 3: the code returns update time 3, name `2`, unit `n`,
string value `5`, no value and no sum. -/
theorem readRecord_cells_witness :
    ReadCSV wholeFloat64 [.ok ["1", "2", "n", "", "5", "", "", "", "3"]] [] =
      .ok [{ Record.zeroValue wholeFloat64 with
        Time := 1, UpdateTime := 3, Name := "2", Unit := "n", StringValue := "5" }] :=
  (readRecord_cells wholeFloat64 "1" "2" "n" "5" "" "3" 1 3 (by decide) (by decide)).2

/-- C11, the code at the failing input: the data rows of `WriteCSV` are the rows of the records
of `p` as they are, because the result of `p.Normalize()` is not used. For the pack `basePack`
it writes the unresolved name `temp`, no unit and the relative time 2, and a row for the
sum-only record, where `Normalize(p)` has the one record `devtemp`, `degC`, 1002. -/
theorem WriteCSV_rows_not_normalized :
    (∀ (F : Type) (lib : Float64 F) (now : F) (p : Pack F),
        WriteCSV lib now p [] = p.map (writeRow lib)) ∧
      WriteCSV wholeFloat64 1000 basePack [] =
        [["2", "0", "temp", "", "1", "", "", "", ""], ["0", "0", "x", "", "", "", "", "", "3"]] ∧
      (Normalize wholeFloat64 1000 basePack).map (writeRow wholeFloat64) =
        [["1002", "0", "devtemp", "degC", "1", "", "", "", ""]] := by
  refine ⟨?_, by decide, by decide⟩
  intro F lib now p
  simp [WriteCSV, applyOptions]

theorem toDigitsCore_ne_nil (b fuel n : Nat) (ds : List Char) (h : ds ≠ [] ∨ 0 < fuel) :
    Nat.toDigitsCore b fuel n ds ≠ [] := by
  induction fuel generalizing n ds with
  | zero =>
    rcases h with h | h
    · simpa [Nat.toDigitsCore] using h
    · omega
  | succ fuel ih =>
    unfold Nat.toDigitsCore
    simp only
    split
    · simp
    · exact ih _ _ (Or.inl (by simp))

theorem Nat_repr_ne_empty (n : Nat) : Nat.repr n ≠ "" := by
  intro h
  have h1 : (Nat.repr n).data = [] := by rw [h]
  exact toDigitsCore_ne_nil 10 (n + 1) n [] (Or.inr (Nat.succ_pos n)) h1

theorem Int_toString_ne_empty (x : Int) : toString x ≠ "" := by
  cases x with
  | ofNat n => exact Nat_repr_ne_empty n
  | negSucc n =>
    intro h
    have h1 : (toString (Int.negSucc n)).data = [] := by rw [h]
    simp [toString, instToStringInt, Int.repr] at h1

theorem foldl_options_WithHeader (options : List (Options → Options)) (o : Options)
    (hopts : ∀ opt ∈ options, opt = WithHeader ∨ ∀ o, (opt o).WithHeader = o.WithHeader) :
    (options.foldl (fun o opt => opt o) o).WithHeader = true ↔
      (o.WithHeader = true ∨ WithHeader ∈ options) := by
  induction options generalizing o with
  | nil => simp
  | cons opt rest ih =>
    rw [List.foldl_cons, ih _ (fun x hx => hopts x (List.mem_cons_of_mem _ hx))]
    rcases hopts opt (List.mem_cons_self _ _) with h | h
    · subst h
      simp [WithHeader]
    · rw [h o]
      have hne : WithHeader ≠ opt := by
        intro he
        subst he
        have := h { PrettyPrint := false, WithHeader := false }
        simp [WithHeader] at this
      simp [hne]

theorem applyOptions_WithHeader (options : List (Options → Options))
    (hopts : ∀ opt ∈ options, opt = WithHeader ∨ ∀ o, (opt o).WithHeader = o.WithHeader) :
    (applyOptions options).WithHeader = true ↔ WithHeader ∈ options := by
  unfold applyOptions
  rw [foldl_options_WithHeader options _ hopts]
  simp

theorem csvHeaderRow_eq : csvHeaderRow = headerCells := by decide

/-- C12: the row that `WriteCSV` emits for a record has nine cells, in the order Time, Update
Time, Name, Unit, Value, String Value, Boolean Value, Data Value, Sum; the Value, Boolean Value
and Sum cells are empty exactly when the field is absent, the Boolean Value cell is `true` or
`false` otherwise; and the header row of nine cells is written first exactly when the option
`WithHeader` is among the options. The float64 formatter never returns the empty text, and the
options other than `WithHeader` leave the field `WithHeader` alone. -/
theorem WriteCSV_row_format {F : Type} (lib : Float64 F)
    (hfmt : ∀ x, lib.formatFloat x ≠ "") :
    (∀ r : Record F, ∃ value bool sum : String,
      writeRow lib r =
        [lib.formatFloat r.Time, lib.formatFloat r.UpdateTime, r.Name, r.Unit, value,
          r.StringValue, bool, r.DataValue, sum] ∧
      (value = "" ↔ r.Value = none) ∧ (∀ v, r.Value = some v → value = lib.formatFloat v) ∧
      (bool = "" ↔ r.BoolValue = none) ∧ (r.BoolValue = some true → bool = "true") ∧
      (r.BoolValue = some false → bool = "false") ∧
      (sum = "" ↔ r.Sum = none) ∧ (∀ v, r.Sum = some v → sum = lib.formatFloat v)) ∧
    (∀ (now : F) (p : Pack F) (options : List (Options → Options)),
      (∀ opt ∈ options, opt = WithHeader ∨ ∀ o, (opt o).WithHeader = o.WithHeader) →
      (WithHeader ∈ options →
        WriteCSV lib now p options = headerCells :: p.map (writeRow lib)) ∧
      (WithHeader ∉ options → WriteCSV lib now p options = p.map (writeRow lib))) := by
  constructor
  · intro r
    refine ⟨_, _, _, writeRow_eq lib r, ?_, ?_, ?_, ?_, ?_, ?_, ?_⟩
    · cases h : r.Value with
      | none => simp
      | some v => simp [hfmt v]
    · intro v h; rw [h]
    · cases h : r.BoolValue with
      | none => simp
      | some b => cases b <;> simp [formatBool]
    · intro h; rw [h]; rfl
    · intro h; rw [h]; rfl
    · cases h : r.Sum with
      | none => simp
      | some v => simp [hfmt v]
    · intro v h; rw [h]
  · intro now p options hopts
    have h := applyOptions_WithHeader options hopts
    constructor
    · intro hw
      simp [WriteCSV, h.mpr hw, csvHeaderRow_eq]
    · intro hw
      have h1 : (applyOptions options).WithHeader = false := by
        cases hb : (applyOptions options).WithHeader with
        | false => rfl
        | true => exact absurd (h.mp hb) hw
      simp [WriteCSV, h1]

/-- The theorem `WriteCSV_row_format` at the whole-number instance: the pack of
`ExampleEncodeCSV` with the header, as in the test. -/
theorem WriteCSV_row_format_witness :
    WriteCSV wholeFloat64 0 examplePack [WithHeader] =
      [headerCells,
        ["1276020000", "0", "room1/temp_label", "", "", "hot", "", "", ""],
        ["1276020100", "0", "room1/temp_label", "", "", "cool", "", "", ""]] :=
  (((WriteCSV_row_format wholeFloat64 Int_toString_ne_empty).2 0 examplePack [WithHeader]
    (by intro opt h; simp at h; exact Or.inl h)).1 (by simp)).trans (by decide)

/-- C14, the code at the failing input: on a row of fewer than nine cells whose first cell
parses as a number, `ReadCSV` does not return: the index expression `row[8]` panics. -/
theorem ReadCSV_short_row_panics {F : Type} (lib : Float64 F) (row : List String) (c0 : String)
    (t : F) (rest : List (Except String (List String))) (hrow : row[0]? = some c0)
    (hlen : row.length < 9) (h0 : lib.parseFloat c0 = .ok t) :
    ReadCSV lib (.ok row :: rest) [] =
      .panic ("runtime error: index out of range [8] with length " ++ toString row.length) := by
  have h8 : row[8]? = none := List.getElem?_eq_none (by omega)
  simp only [ReadCSV, applyOptions, readLoop, readRecord, cell, Outcome.bind, Outcome.ofExcept,
    hrow, h0, h8, List.foldl_nil, Bool.false_eq_true, if_false]
  rfl

/-- The theorem `ReadCSV_short_row_panics` at the CSV text `1,2,3`. -/
theorem ReadCSV_short_row_panics_witness :
    ReadCSV wholeFloat64 [.ok ["1", "2", "3"]] [] =
      .panic "runtime error: index out of range [8] with length 3" :=
  ReadCSV_short_row_panics wholeFloat64 ["1", "2", "3"] "1" 1 [] rfl (by decide) (by decide)

theorem readLoop_error {F : Type} (lib : Float64 F) (pre : List (List String))
    (recs : Pack F) (row : List String) (rest : List (Except String (List String)))
    (acc : Pack F) (e : String)
    (hpre : List.Forall₂ (fun row r => readRecord lib row = .ok r) pre recs)
    (hrow : readRecord lib row = .error e) :
    readLoop lib (pre.map .ok ++ .ok row :: rest) acc = .error e := by
  induction hpre generalizing acc with
  | nil => simp [readLoop, hrow, Outcome.bind]
  | cons h _ ih => simp [readLoop, h, Outcome.bind, ih]

/-- All or nothing, for the cells that the code parses: when the rows before a row are read
without error and a parse of that row fails, `ReadCSV` returns this error and no pack, without
or with the header row. -/
theorem ReadCSV_all_or_nothing {F : Type} (lib : Float64 F) (pre : List (List String))
    (recs : Pack F) (row : List String) (rest : List (Except String (List String)))
    (e : String) (hpre : List.Forall₂ (fun row r => readRecord lib row = .ok r) pre recs)
    (hrow : readRecord lib row = .error e) :
    ReadCSV lib (pre.map .ok ++ .ok row :: rest) [] = .error e ∧
      ReadCSV lib (.ok csvHeaderRow :: (pre.map .ok ++ .ok row :: rest)) [WithHeader] =
        .error e := by
  have h := readLoop_error lib pre recs row rest [] e hpre hrow
  constructor
  · simp [ReadCSV, applyOptions, h]
  · simp [ReadCSV, applyOptions, WithHeader, stringsJoin_csvHeaderRow, h]

/-- C16, the code at the failing input: the second row has `x` in the Update Time column of the
header (cell 1), which does not parse as a number, and the decode returns a pack of two records,
`x` being the name of the second; the code parses cell 8 as Update Time. -/
theorem ReadCSV_accepts_bad_update_time :
    parseWhole "x" = .error (parseFloatSyntaxError "x") ∧
      ReadCSV wholeFloat64
          [.ok ["1", "2", "", "", "", "", "", "", "3"],
            .ok ["1", "x", "", "", "", "", "", "", "3"]] [] =
        .ok [{ Record.zeroValue wholeFloat64 with Time := 1, UpdateTime := 3, Name := "2" },
          { Record.zeroValue wholeFloat64 with Time := 1, UpdateTime := 3, Name := "x" }] := by
  decide

theorem splitChars_append_sep (sep : Char) (w rest : List Char) (hw : sep ∉ w) :
    splitChars sep (w ++ sep :: rest) = w :: splitChars sep rest := by
  induction w with
  | nil => simp [splitChars]
  | cons c w ih =>
    have hc : c ≠ sep := fun h => hw (by simp [h])
    have hw1 : sep ∉ w := fun h => hw (List.mem_cons_of_mem _ h)
    simp [splitChars, hc, ih hw1]

theorem splitChars_of_not_mem (sep : Char) (w : List Char) (hw : sep ∉ w) :
    splitChars sep w = [w] := by
  induction w with
  | nil => rfl
  | cons c w ih =>
    have hc : c ≠ sep := fun h => hw (by simp [h])
    have hw1 : sep ∉ w := fun h => hw (List.mem_cons_of_mem _ h)
    simp [splitChars, hc, ih hw1]

theorem intercalate_go_data (acc s : String) (as : List String) :
    (String.intercalate.go acc s as).data =
      acc.data ++ as.foldr (fun a t => s.data ++ a.data ++ t) [] := by
  induction as generalizing acc with
  | nil => simp [String.intercalate.go]
  | cons a as ih => simp [String.intercalate.go, ih, String.data_append]

theorem splitChars_join (w : List Char) (as : List String) (hw : ',' ∉ w)
    (has : ∀ a ∈ as, ',' ∉ a.data) :
    splitChars ',' (w ++ as.foldr (fun a t => ",".data ++ a.data ++ t) []) =
      w :: as.map (·.data) := by
  induction as generalizing w with
  | nil => simpa using splitChars_of_not_mem ',' w hw
  | cons a as ih =>
    have h1 : w ++ List.foldr (fun a t => ",".data ++ a.data ++ t) [] (a :: as) =
        w ++ ',' :: (a.data ++ as.foldr (fun a t => ",".data ++ a.data ++ t) []) := by
      simp
    rw [h1, splitChars_append_sep ',' w _ hw,
      ih a.data (has a (List.mem_cons_self _ _)) (fun x hx => has x (List.mem_cons_of_mem _ hx))]
    simp

theorem stringsSplit_stringsJoin (row : List String) (hne : row ≠ [])
    (hrow : ∀ c ∈ row, ',' ∉ c.data) : stringsSplit (stringsJoin row ",") ',' = row := by
  cases row with
  | nil => exact absurd rfl hne
  | cons a as =>
    unfold stringsSplit stringsJoin
    rw [String.intercalate, intercalate_go_data,
      splitChars_join a.data as (hrow a (List.mem_cons_self _ _))
        (fun x hx => hrow x (List.mem_cons_of_mem _ hx))]
    have hid : (String.mk ∘ fun x : String => x.data) = id := by
      funext x
      rfl
    simp [hid]

theorem stringsJoin_ne_CSVHeader (row : List String) (hrow : ∀ c ∈ row, ',' ∉ c.data)
    (hne : row ≠ headerCells) : stringsJoin row "," ≠ CSVHeader := by
  intro h
  by_cases h0 : row = []
  · subst h0
    revert h
    decide
  · have h1 := stringsSplit_stringsJoin row h0 hrow
    rw [h] at h1
    exact hne (h1.symm.trans csvHeaderRow_eq)

/-- C13, as amended: when the option `WithHeader` is given, `ReadCSV` and `DecodeCSV` return an
error and no pack for every input whose first row, joined with commas, is not the header text,
an input with no rows included; this is so for every first row other than the nine header cells
in which no cell has a comma inside. -/
theorem ReadCSV_header_mismatch {F : Type} (lib : Float64 F) :
    (∀ (r : List (Except String (List String))) (options : List (Options → Options)),
      (applyOptions options).WithHeader = true →
      (∀ row rest, r = .ok row :: rest → stringsJoin row "," ≠ CSVHeader) →
      ∃ e, ReadCSV lib r options = .error e ∧ DecodeCSV lib r options = .error e) ∧
    (∀ row : List String, (∀ c ∈ row, ',' ∉ c.data) → row ≠ headerCells →
      stringsJoin row "," ≠ CSVHeader) := by
  refine ⟨?_, stringsJoin_ne_CSVHeader⟩
  intro r options hopt hrow
  have key : ∃ e, ReadCSV lib r options = .error e := by
    unfold ReadCSV
    simp only [hopt, if_true]
    match r, hrow with
    | [], _ => exact ⟨_, rfl⟩
    | .error err :: _, _ => exact ⟨_, rfl⟩
    | .ok row :: rest, hrow =>
      have h := hrow row rest rfl
      simp only [ne_eq, h, not_false_eq_true, if_true]
      exact ⟨_, rfl⟩
  obtain ⟨e, he⟩ := key
  exact ⟨e, he, by simp [DecodeCSV, he]⟩

/-- The theorem `ReadCSV_header_mismatch` at the header of ten cells of the test, which starts
with `Bad`, and at an input with no rows. -/
theorem ReadCSV_header_mismatch_witness :
    (∃ e, DecodeCSV wholeFloat64
        [.ok ["Bad", "Time", "Name", "Unit", "Value", "String Value", "Boolean Value",
          "Data Value", "Sum", "Update Time"]] [WithHeader] = .error e) ∧
      (∃ e, DecodeCSV wholeFloat64 [] [WithHeader] = .error e) := by
  have h := ReadCSV_header_mismatch wholeFloat64
  constructor
  · obtain ⟨e, _, he⟩ := h.1
      [.ok ["Bad", "Time", "Name", "Unit", "Value", "String Value", "Boolean Value",
        "Data Value", "Sum", "Update Time"]] [WithHeader] rfl
      (by
        intro row rest hr
        simp only [List.cons.injEq, Except.ok.injEq] at hr
        rw [← hr.1]
        exact h.2 _ (by decide) (by decide))
    exact ⟨e, he⟩
  · obtain ⟨e, _, he⟩ := h.1 [] [WithHeader] rfl (by intro row rest hr; cases hr)
    exact ⟨e, he⟩

/-- C13 as stated fails: a first row of eight cells, the first of which is
`Time,Update Time`, is not the nine header cells, and it is accepted, because the code compares
the cells joined with commas with the header text. -/
theorem ReadCSV_header_joined :
    ReadCSV wholeFloat64
        [.ok ["Time,Update Time", "Name", "Unit", "Value", "String Value", "Boolean Value",
          "Data Value", "Sum"]] [WithHeader] = .ok [] ∧
      ["Time,Update Time", "Name", "Unit", "Value", "String Value", "Boolean Value",
        "Data Value", "Sum"] ≠ headerCells := by
  decide

/-! ## `Decode` and `Encode` -/

theorem foldl_append_eq (l : List String) (acc : String) :
    l.foldl (fun r s => r ++ s) acc = acc ++ String.join l := by
  induction l generalizing acc with
  | nil => simp [String.join]
  | cons a l ih =>
    have hj : String.join (a :: l) = a ++ String.join l := by
      show List.foldl (fun r s => r ++ s) ("" ++ a) l = _
      rw [ih]
      simp
    rw [List.foldl_cons, ih, hj, String.append_assoc]

theorem String_join_cons (a : String) (l : List String) :
    String.join (a :: l) = a ++ String.join l := by
  rw [String.join, List.foldl_cons, foldl_append_eq]
  simp

theorem encodeLinep_foldl {F : Type} (lib : Float64 F) (topic : String) (p : Pack F)
    (buf : String) :
    p.foldl (fun buf r =>
      match r.Value with
      | some v =>
        let buf := buf ++ topic
        let buf := buf ++ ",n="
        let buf := buf ++ r.Name
        let buf := buf ++ ",u="
        let buf := buf ++ r.Unit
        let buf := buf ++ " v="
        let buf := buf ++ lib.formatFloat v
        let buf := buf ++ " "
        let buf := buf ++ formatInt (lib.toInt64 (lib.mul r.Time (lib.ofInt 1000000000)))
        buf ++ "\n"
      | none => buf) buf =
      buf ++ String.join (p.filterMap (fun r => r.Value.map (linepLine lib topic r))) := by
  induction p generalizing buf with
  | nil => simp [String.join]
  | cons r rs ih =>
    rw [List.foldl_cons, ih]
    cases hv : r.Value with
    | none => simp [List.filterMap_cons, hv]
    | some v =>
      simp only [List.filterMap_cons, hv, Option.map_some', String_join_cons, linepLine,
        formatInt, String.append_assoc]

/-- C17: `Encode(p, LINEP, o)` returns, with no error, one line for each record of `p` that has
a value, in the order of the pack, and nothing for the other records; the line is the topic,
`,n=`, the name, `,u=`, the unit, ` v=`, the value in decimals, a blank, `time * 1e9`
converted to int64 in decimals, and a newline, the topic being `o.Topic`, or `senml` when that
is empty. -/
theorem Encode_LINEP {F : Type} (lib : Float64 F) (codecs : Codecs F) (now : F) (p : Pack F)
    (o : OutputOptions) :
    Encode lib codecs now p LINEP o =
      .ok (String.join (p.filterMap (fun r =>
        r.Value.map (fun v =>
          (if o.Topic = "" then "senml" else o.Topic) ++ ",n=" ++ r.Name ++ ",u=" ++ r.Unit ++
            " v=" ++ lib.formatFloat v ++ " " ++
            toString (lib.toInt64 (lib.mul r.Time (lib.ofInt 1000000000))) ++ "\n")))) := by
  have h1 : LINEP ≠ JSON := by decide
  have h2 : LINEP ≠ XML := by decide
  have h3 : LINEP ≠ CSV := by decide
  have h4 : LINEP ≠ CBOR := by decide
  have h5 : LINEP ≠ MPACK := by decide
  unfold Encode
  simp only [h1, h2, h3, h4, h5, if_false, if_true]
  unfold encodeLinep
  rw [encodeLinep_foldl]
  have he : ∀ x : String, "" ++ x = x := fun x => by simp
  by_cases ht : o.Topic = ""
  · simp only [ht, if_true, he]
    rfl
  · simp only [ht, if_false, he]
    rfl

/-- The theorem `Encode_LINEP` at the whole-number instance, on `linepPack`: a record at time
3 with value 7, a record with a string value only, which gets no line, a record at time
1276020000 with a unit, and a record at time 10000000000, whose nanoseconds are outside int64;
without a topic and with the topic `home`. -/
theorem Encode_LINEP_witness :
    Encode wholeFloat64 nameOnlyCodecs 0 linepPack LINEP { PrettyPrint := false, Topic := "" } =
        .ok ("senml,n=a,u= v=7 3000000000\n" ++
          "senml,n=room1/temp,u=degC v=22 1276020000000000000\n" ++
          "senml,n=far,u= v=1 -9223372036854775808\n") ∧
      Encode wholeFloat64 nameOnlyCodecs 0 linepPack LINEP
          { PrettyPrint := false, Topic := "home" } =
        .ok ("home,n=a,u= v=7 3000000000\n" ++
          "home,n=room1/temp,u=degC v=22 1276020000000000000\n" ++
          "home,n=far,u= v=1 -9223372036854775808\n") :=
  ⟨(Encode_LINEP wholeFloat64 nameOnlyCodecs 0 linepPack
      { PrettyPrint := false, Topic := "" }).trans (by decide),
    (Encode_LINEP wholeFloat64 nameOnlyCodecs 0 linepPack
      { PrettyPrint := false, Topic := "home" }).trans (by decide)⟩

/-- C20: for a format that is none of JSON, JSONLINE, XML, CBOR and MPACK, such as CSV and
LINEP, `Decode` returns the empty pack and no error, whatever the input. -/
theorem Decode_no_branch {F : Type} (codecs : Codecs F) (msg : String) (format : Format)
    (h : format ≠ JSON ∧ format ≠ JSONLINE ∧ format ≠ XML ∧ format ≠ CBOR ∧ format ≠ MPACK) :
    Decode codecs msg format = ([], none) := by
  obtain ⟨h1, h2, h3, h4, h5⟩ := h
  simp [Decode, decodeSwitch, h1, h2, h3, h4, h5, Validate, validateLoop]

/-- The theorem `Decode_no_branch` at the formats CSV and LINEP and at the tag 99. -/
theorem Decode_no_branch_witness :
    Decode nameOnlyCodecs "1,2,3" CSV = ([], none) ∧
      Decode nameOnlyCodecs "senml,n=a,u= v=7 3" LINEP = ([], none) ∧
      Decode nameOnlyCodecs "[]" 99 = ([], none) :=
  ⟨Decode_no_branch nameOnlyCodecs _ CSV (by decide),
    Decode_no_branch nameOnlyCodecs _ LINEP (by decide),
    Decode_no_branch nameOnlyCodecs _ 99 (by decide)⟩

/-- C15, as amended: `Decode` validates after parsing for every format, JSONLINE included.
When the parser of the format has returned the pack `p` without error, `Decode` returns `p`
with the error `invalid SenML Pack: ` followed by the validation error if `Validate(p)` fails,
and `p` with no error otherwise. -/
theorem Decode_validates {F : Type} (codecs : Codecs F) (msg : String) (format : Format)
    (p : Pack F)
    (hparse :
      (format = JSON ∧ codecs.jsonUnmarshal msg = (p, none)) ∨
      (format = JSONLINE ∧ decodeLines codecs (stringsSplit msg '\n') [] = .ok p) ∨
      (format = XML ∧ codecs.xmlUnmarshal msg = .ok p) ∨
      (format = CBOR ∧ codecs.cborDecode msg = (p, none)) ∨
      (format = MPACK ∧ codecs.mpackDecode msg = (p, none))) :
    (∀ e, Validate p = .error e → Decode codecs msg format = (p, some ("invalid SenML Pack: " ++ e))) ∧
      (Validate p = .ok () → Decode codecs msg format = (p, none)) := by
  have hs : decodeSwitch codecs msg format = .ok p := by
    have h1 : JSONLINE ≠ JSON := by decide
    have h2 : XML ≠ JSON := by decide
    have h3 : XML ≠ JSONLINE := by decide
    have h4 : CBOR ≠ JSON := by decide
    have h5 : CBOR ≠ JSONLINE := by decide
    have h6 : CBOR ≠ XML := by decide
    have h7 : MPACK ≠ JSON := by decide
    have h8 : MPACK ≠ JSONLINE := by decide
    have h9 : MPACK ≠ XML := by decide
    have h10 : MPACK ≠ CBOR := by decide
    unfold decodeSwitch
    rcases hparse with ⟨hf, h⟩ | ⟨hf, h⟩ | ⟨hf, h⟩ | ⟨hf, h⟩ | ⟨hf, h⟩ <;> subst hf <;>
      simp [h, h1, h2, h3, h4, h5, h6, h7, h8, h9, h10]
  constructor
  · intro e he
    simp [Decode, hs, he]
  · intro he
    simp [Decode, hs, he]

/-- The theorem `Decode_validates` at JSON lines: the line `{"n":"a"}`, a record with no value
and no sum, gives the error of `Validate`, and no line gives the empty pack and no error. -/
theorem Decode_validates_witness :
    Decode nameOnlyCodecs jsonLineA JSONLINE =
        ([{ Record.zeroValue wholeFloat64 with Name := "a" }],
          some "invalid SenML Pack: no value or sum") ∧
      Decode nameOnlyCodecs "" JSONLINE = ([], none) :=
  ⟨(Decode_validates nameOnlyCodecs jsonLineA JSONLINE
      [{ Record.zeroValue wholeFloat64 with Name := "a" }]
      (Or.inr (Or.inl ⟨rfl, by decide⟩))).1 errNoValue (by decide),
    (Decode_validates nameOnlyCodecs "" JSONLINE [] (Or.inr (Or.inl ⟨rfl, by decide⟩))).2
      (by decide)⟩

/-- C15 as stated fails for JSONLINE: the JSON line `{"n":"a"}` is parsed into a record with no
value and no sum, and `Decode` returns the error of `Validate` for it. -/
theorem Decode_JSONLINE_validates :
    (Decode nameOnlyCodecs jsonLineA JSONLINE).2 =
      some "invalid SenML Pack: no value or sum" := by
  decide

/-! ## `Validate` after `Normalize` -/

theorem Validate_ok_record {F : Type} (p : Pack F) (hval : Validate p = .ok ()) (i : Nat)
    (r : Record F) (hr : p[i]? = some r) :
    ValidateName (inheritedBaseName p i ++ r.Name) = .ok () ∧
      (valueSlots r).count true ≤ 1 ∧ hasValueOrSum r := by
  have h := (validateLoop_ok_iff _ p).mp hval i r hr
  obtain ⟨_, hn, hc, hs⟩ := (firstFailure_none_iff _ r).mp h
  rw [inheritedBaseName_eq p i r hr]
  exact ⟨hn, hc, hs⟩

theorem mem_Normalize {F : Type} (lib : Float64 F) (now : F) (p : Pack F) (out : Record F)
    (h : out ∈ Normalize lib now p) :
    ∃ i r, p[i]? = some r ∧ hasValue r = true ∧
      out = resolve lib now (inheritedBase lib p i) r := by
  rw [Normalize_eq_normalizeFrom, normalizeFrom_eq_map_enum] at h
  obtain ⟨x, hx, rfl⟩ := List.mem_map.mp h
  obtain ⟨hx1, hx2⟩ := List.mem_filter.mp hx
  exact ⟨x.1, x.2, List.mem_enum_iff_getElem?.mp hx1, hx2, rfl⟩

theorem validateLoop_same_version {F : Type} (w : Int) (q : List (Record F))
    (st : ValidateState) (hst : st.bname = "" ∧ (st.bver = -1 ∨ st.bver = w))
    (hq : ∀ out ∈ q, out.BaseName = "" ∧ out.BaseVersion = w ∧
      ValidateName out.Name = .ok () ∧ (valueSlots out).count true ≤ 1 ∧ hasValueOrSum out) :
    validateLoop st q = .ok () := by
  induction q generalizing st with
  | nil => rfl
  | cons out q ih =>
    obtain ⟨h1, h2, h3, h4, h5⟩ := hq out (List.mem_cons_self _ _)
    obtain ⟨hb, hv⟩ := hst
    have hcv : checkVersion st.bver out = .ok (if st.bver = -1 ∧ w ≠ 0 then w else st.bver) := by
      unfold checkVersion
      rcases hv with hv | hv
      · by_cases hw : w = 0 <;> simp [hv, h2, hw]
      · by_cases hm : w = -1
        · by_cases hw : w = 0 <;> simp [hv, h2, hw, hm]
        · by_cases hw : w = 0 <;> simp [hv, h2, hw, hm]
    have hbn : (validateVars st out).bname = "" := by
      simp [validateVars, h1, hb]
    have hbv : (validateVars st out).bver = -1 ∨ (validateVars st out).bver = w := by
      simp only [validateVars, hcv]
      rcases hv with hv | hv
      · by_cases hw : w = 0
        · left; simp [hv, hw]
        · right; simp [hv, hw]
      · right
        by_cases hm : st.bver = -1 ∧ w ≠ 0
        · simp [hm]
        · simp [hm, hv]
    have hff : firstFailure (checksInOrder st out) = none := by
      rw [firstFailure_none_iff]
      refine ⟨⟨_, hcv⟩, ?_, h4, h5⟩
      rw [hbn]
      simpa using h3
    rw [validateLoop_cons, hff]
    exact ih _ ⟨hbn, hbv⟩ (fun x hx => hq x (List.mem_cons_of_mem _ hx))

/-- C19, as amended: if `Validate(p)` succeeds and the records of `p` that have a value all
inherit the same version (the most recent non-zero baseVersion at or before them, or 5), then
`Validate(Normalize(p))` succeeds, for every `now`. -/
theorem Validate_Normalize {F : Type} (lib : Float64 F) (now : F) (p : Pack F)
    (hval : Validate p = .ok ())
    (hsame : ∀ i j ri rj, p[i]? = some ri → p[j]? = some rj → hasValue ri = true →
      hasValue rj = true → inheritedVersion p i = inheritedVersion p j) :
    Validate (Normalize lib now p) = .ok () := by
  have key : ∀ w, (∀ out ∈ Normalize lib now p, out.BaseVersion = w) →
      Validate (Normalize lib now p) = .ok () := by
    intro w hw
    apply validateLoop_same_version w _ _ ⟨rfl, Or.inl rfl⟩
    intro out hout
    obtain ⟨i, r, hr, hv, rfl⟩ := mem_Normalize lib now p out hout
    obtain ⟨hn, hc, _⟩ := Validate_ok_record p hval i r hr
    refine ⟨rfl, hw _ hout, hn, hc, ?_⟩
    rw [hasValueOrSum_iff]
    have hv1 : hasValue (resolve lib now (inheritedBase lib p i) r) = true := hv
    simp [hv1]
  by_cases hex : ∃ (i : Nat) (r : Record F), p[i]? = some r ∧ hasValue r = true
  · obtain ⟨i, r, hr, hv⟩ := hex
    apply key (inheritedVersion p i)
    intro out hout
    obtain ⟨j, rj, hrj, hvj, rfl⟩ := mem_Normalize lib now p out hout
    exact hsame j i rj r hrj hr hvj hv
  · apply key 5
    intro out hout
    obtain ⟨j, rj, hrj, hvj, _⟩ := mem_Normalize lib now p out hout
    exact absurd ⟨j, rj, hrj, hvj⟩ hex

/-- The theorem `Validate_Normalize` at a pack that declares the version 7 in its first record:
the dropped record with the base name and the record after it. -/
theorem Validate_Normalize_witness :
    Validate (Normalize wholeFloat64 1700000000
      [{ sample 7 "" 0 none "" with BaseName := "dev", Sum := some 3 },
        sample 0 "temp" 2 (some 1) ""]) = .ok () :=
  Validate_Normalize wholeFloat64 1700000000
    [{ sample 7 "" 0 none "" with BaseName := "dev", Sum := some 3 },
      sample 0 "temp" 2 (some 1) ""]
    (by decide)
    (by
      intro i j ri rj hi hj hvi hvj
      have hi1 : i = 1 := by
        match i, hi with
        | 0, hi =>
          simp only [List.getElem?_cons_zero, Option.some.injEq] at hi
          subst hi
          exact absurd hvi (by decide)
        | 1, _ => rfl
        | n + 2, hi => simp at hi
      have hj1 : j = 1 := by
        match j, hj with
        | 0, hj =>
          simp only [List.getElem?_cons_zero, Option.some.injEq] at hj
          subst hj
          exact absurd hvj (by decide)
        | 1, _ => rfl
        | n + 2, hj => simp at hj
      rw [hi1, hj1])

/-- C19 as stated fails: the pack `lateVersionPack` validates, its first record has no version
and its second record declares the version 7; `Normalize` writes the default 5 into the first
output record and 7 into the second, which `Validate` rejects as a version change. -/
theorem Validate_Normalize_version_change :
    Validate lateVersionPack = .ok () ∧
      Validate (Normalize wholeFloat64 1700000000 lateVersionPack) =
        .error errVersionChange := by
  decide

/-! ## The binary codecs -/

theorem foldlM_piece {F : Type} (c : Prop) [Decidable c] (e : Int × Item F)
    (st st' : Record F) (rest : List (Int × Item F))
    (h1 : c → specSetField st e = some st') (h2 : ¬ c → st = st') :
    List.foldlM specSetField st ((if c then [e] else []) ++ rest) =
      List.foldlM specSetField st' rest := by
  by_cases hc : c
  · simp [hc, h1 hc]
  · simp [hc, h2 hc]

theorem foldlM_optionalEntry {F α : Type} (o : Option α) (label : Int) (f : α → Item F)
    (st st' : Record F) (rest : List (Int × Item F))
    (h1 : ∀ v, o = some v → specSetField st (label, f v) = some st') (h2 : o = none → st = st') :
    List.foldlM specSetField st (optionalEntry label (o.map f) ++ rest) =
      List.foldlM specSetField st' rest := by
  cases o with
  | none => simp [optionalEntry, h2 rfl]
  | some v => simp [optionalEntry, h1 v rfl]

theorem eq_of_not_ne_empty {s : String} (h : ¬ s ≠ "") : s = "" := not_not.mp h

theorem zeroed_of_false {F : Type} (isZero : F → Bool) (zero : F) {x : F}
    (h : isZero x = false) : zeroed isZero zero x = x := by
  simp [zeroed, h]

theorem zeroed_of_not_false {F : Type} (isZero : F → Bool) (zero : F) {x : F}
    (h : ¬ isZero x = false) : zeroed isZero zero x = zero := by
  cases hx : isZero x <;> simp_all [zeroed]

theorem specRecordOfMap_specLabelMap {F : Type} (isZero : F → Bool) (zero : F) (r : Record F) :
    specRecordOfMap zero (specLabelMap isZero r) =
      some { r with
        XMLName := none, BaseTime := zeroed isZero zero r.BaseTime,
        Time := zeroed isZero zero r.Time, UpdateTime := zeroed isZero zero r.UpdateTime } := by
  have hnil : ∀ l : List (Int × Item F), l = l ++ [] := fun l => (List.append_nil l).symm
  unfold specRecordOfMap specLabelMap
  rw [hnil (optionalEntry 5 (r.Sum.map Item.float))]
  simp only [List.append_assoc]
  refine Eq.trans (foldlM_piece _ _ _
    { zeroRecord zero with
      BaseName := r.BaseName } _ ?_ ?_) ?_
  · intro _; rfl
  · intro h; rw [eq_of_not_ne_empty h]; rfl
  refine Eq.trans (foldlM_piece _ _ _
    { zeroRecord zero with
      BaseName := r.BaseName,
      BaseTime := zeroed isZero zero r.BaseTime } _ ?_ ?_) ?_
  · intro h; rw [zeroed_of_false isZero zero h]; rfl
  · intro h; rw [zeroed_of_not_false isZero zero h]; rfl
  refine Eq.trans (foldlM_piece _ _ _
    { zeroRecord zero with
      BaseName := r.BaseName,
      BaseTime := zeroed isZero zero r.BaseTime,
      BaseUnit := r.BaseUnit } _ ?_ ?_) ?_
  · intro _; rfl
  · intro h; rw [eq_of_not_ne_empty h]; rfl
  refine Eq.trans (foldlM_piece _ _ _
    { zeroRecord zero with
      BaseName := r.BaseName,
      BaseTime := zeroed isZero zero r.BaseTime,
      BaseUnit := r.BaseUnit,
      BaseVersion := r.BaseVersion } _ ?_ ?_) ?_
  · intro _; rfl
  · intro h; rw [not_not.mp h]; rfl
  refine Eq.trans (foldlM_piece _ _ _
    { zeroRecord zero with
      BaseName := r.BaseName,
      BaseTime := zeroed isZero zero r.BaseTime,
      BaseUnit := r.BaseUnit,
      BaseVersion := r.BaseVersion,
      Name := r.Name } _ ?_ ?_) ?_
  · intro _; rfl
  · intro h; rw [eq_of_not_ne_empty h]; rfl
  refine Eq.trans (foldlM_piece _ _ _
    { zeroRecord zero with
      BaseName := r.BaseName,
      BaseTime := zeroed isZero zero r.BaseTime,
      BaseUnit := r.BaseUnit,
      BaseVersion := r.BaseVersion,
      Name := r.Name,
      Unit := r.Unit } _ ?_ ?_) ?_
  · intro _; rfl
  · intro h; rw [eq_of_not_ne_empty h]; rfl
  refine Eq.trans (foldlM_piece _ _ _
    { zeroRecord zero with
      BaseName := r.BaseName,
      BaseTime := zeroed isZero zero r.BaseTime,
      BaseUnit := r.BaseUnit,
      BaseVersion := r.BaseVersion,
      Name := r.Name,
      Unit := r.Unit,
      Time := zeroed isZero zero r.Time } _ ?_ ?_) ?_
  · intro h; rw [zeroed_of_false isZero zero h]; rfl
  · intro h; rw [zeroed_of_not_false isZero zero h]; rfl
  refine Eq.trans (foldlM_piece _ _ _
    { zeroRecord zero with
      BaseName := r.BaseName,
      BaseTime := zeroed isZero zero r.BaseTime,
      BaseUnit := r.BaseUnit,
      BaseVersion := r.BaseVersion,
      Name := r.Name,
      Unit := r.Unit,
      Time := zeroed isZero zero r.Time,
      UpdateTime := zeroed isZero zero r.UpdateTime } _ ?_ ?_) ?_
  · intro h; rw [zeroed_of_false isZero zero h]; rfl
  · intro h; rw [zeroed_of_not_false isZero zero h]; rfl
  refine Eq.trans (foldlM_optionalEntry r.Value 2 Item.float _
    { zeroRecord zero with
      BaseName := r.BaseName,
      BaseTime := zeroed isZero zero r.BaseTime,
      BaseUnit := r.BaseUnit,
      BaseVersion := r.BaseVersion,
      Name := r.Name,
      Unit := r.Unit,
      Time := zeroed isZero zero r.Time,
      UpdateTime := zeroed isZero zero r.UpdateTime,
      Value := r.Value } _ ?_ ?_) ?_
  · intro v h; rw [h]; rfl
  · intro h; rw [h]; rfl
  refine Eq.trans (foldlM_piece _ _ _
    { zeroRecord zero with
      BaseName := r.BaseName,
      BaseTime := zeroed isZero zero r.BaseTime,
      BaseUnit := r.BaseUnit,
      BaseVersion := r.BaseVersion,
      Name := r.Name,
      Unit := r.Unit,
      Time := zeroed isZero zero r.Time,
      UpdateTime := zeroed isZero zero r.UpdateTime,
      Value := r.Value,
      StringValue := r.StringValue } _ ?_ ?_) ?_
  · intro _; rfl
  · intro h; rw [eq_of_not_ne_empty h]; rfl
  refine Eq.trans (foldlM_piece _ _ _
    { zeroRecord zero with
      BaseName := r.BaseName,
      BaseTime := zeroed isZero zero r.BaseTime,
      BaseUnit := r.BaseUnit,
      BaseVersion := r.BaseVersion,
      Name := r.Name,
      Unit := r.Unit,
      Time := zeroed isZero zero r.Time,
      UpdateTime := zeroed isZero zero r.UpdateTime,
      Value := r.Value,
      StringValue := r.StringValue,
      DataValue := r.DataValue } _ ?_ ?_) ?_
  · intro _; rfl
  · intro h; rw [eq_of_not_ne_empty h]; rfl
  refine Eq.trans (foldlM_optionalEntry r.BoolValue 4 Item.bool _
    { zeroRecord zero with
      BaseName := r.BaseName,
      BaseTime := zeroed isZero zero r.BaseTime,
      BaseUnit := r.BaseUnit,
      BaseVersion := r.BaseVersion,
      Name := r.Name,
      Unit := r.Unit,
      Time := zeroed isZero zero r.Time,
      UpdateTime := zeroed isZero zero r.UpdateTime,
      Value := r.Value,
      StringValue := r.StringValue,
      DataValue := r.DataValue,
      BoolValue := r.BoolValue } _ ?_ ?_) ?_
  · intro v h; rw [h]; rfl
  · intro h; rw [h]; rfl
  refine Eq.trans (foldlM_optionalEntry r.Sum 5 Item.float _
    { zeroRecord zero with
      BaseName := r.BaseName,
      BaseTime := zeroed isZero zero r.BaseTime,
      BaseUnit := r.BaseUnit,
      BaseVersion := r.BaseVersion,
      Name := r.Name,
      Unit := r.Unit,
      Time := zeroed isZero zero r.Time,
      UpdateTime := zeroed isZero zero r.UpdateTime,
      Value := r.Value,
      StringValue := r.StringValue,
      DataValue := r.DataValue,
      BoolValue := r.BoolValue,
      Sum := r.Sum } _ ?_ ?_) ?_
  · intro v h; rw [h]; rfl
  · intro h; rw [h]; rfl
  cases r
  rfl

theorem mem_entryIf {F : Type} (c : Prop) [Decidable c] (k label : Int) (v item : Item F) :
    (label, item) ∈ (if c then [(k, v)] else []) ↔ c ∧ label = k ∧ item = v := by
  by_cases hc : c <;> simp [hc]

theorem mem_optionalEntry {F α : Type} (o : Option α) (f : α → Item F) (k label : Int)
    (item : Item F) :
    (label, item) ∈ optionalEntry k (o.map f) ↔ ∃ v, o = some v ∧ label = k ∧ item = f v := by
  cases o <;> simp [optionalEntry]

theorem sublist_entryIf {F : Type} (c : Prop) [Decidable c] (k : Int) (v : Item F) :
    ((if c then [(k, v)] else []).map (·.1)).Sublist [k] := by
  by_cases hc : c <;> simp [hc]

theorem sublist_optionalEntry {F : Type} (k : Int) (o : Option (Item F)) :
    ((optionalEntry k o).map (·.1)).Sublist [k] := by
  cases o <;> simp [optionalEntry]

theorem specLabelMap_labels {F : Type} (isZero : F → Bool) (r : Record F) :
    ((specLabelMap isZero r).map (·.1)).Sublist specLabelTable := by
  have h : specLabelTable =
      [-2] ++ [-3] ++ [-4] ++ [-1] ++ [0] ++ [1] ++ [6] ++ [7] ++ [2] ++ [3] ++ [8] ++ [4] ++
        [5] := rfl
  rw [h]
  unfold specLabelMap
  simp only [List.map_append]
  repeat' apply List.Sublist.append
  all_goals first
    | exact sublist_entryIf _ _ _
    | exact sublist_optionalEntry _ _

/-- The label map of the specification for a record has the entries of the label
table, baseName -2, baseTime -3, baseUnit -4, baseVersion -1, name 0, unit 1, time 6,
updateTime 7, value 2, stringValue 3, dataValue 8, boolValue 4, sum 5, one for each field that
does not hold its zero or empty value and none for the others, each label at most once; and
decoding the map gives the record back field for field, a float64 field that is zero coming
back as the zero value. -/
theorem specLabelMap_entries {F : Type} (isZero : F → Bool) (zero : F) (r : Record F) :
    (∀ (label : Int) (item : Item F), (label, item) ∈ specLabelMap isZero r ↔
      (r.BaseName ≠ "" ∧ label = -2 ∧ item = .text r.BaseName) ∨
      (isZero r.BaseTime = false ∧ label = -3 ∧ item = .float r.BaseTime) ∨
      (r.BaseUnit ≠ "" ∧ label = -4 ∧ item = .text r.BaseUnit) ∨
      (r.BaseVersion ≠ 0 ∧ label = -1 ∧ item = .int r.BaseVersion) ∨
      (r.Name ≠ "" ∧ label = 0 ∧ item = .text r.Name) ∨
      (r.Unit ≠ "" ∧ label = 1 ∧ item = .text r.Unit) ∨
      (isZero r.Time = false ∧ label = 6 ∧ item = .float r.Time) ∨
      (isZero r.UpdateTime = false ∧ label = 7 ∧ item = .float r.UpdateTime) ∨
      (∃ v, r.Value = some v ∧ label = 2 ∧ item = .float v) ∨
      (r.StringValue ≠ "" ∧ label = 3 ∧ item = .text r.StringValue) ∨
      (r.DataValue ≠ "" ∧ label = 8 ∧ item = .text r.DataValue) ∨
      (∃ b, r.BoolValue = some b ∧ label = 4 ∧ item = .bool b) ∨
      (∃ v, r.Sum = some v ∧ label = 5 ∧ item = .float v)) ∧
    ((specLabelMap isZero r).map (·.1)).Sublist specLabelTable ∧
    specRecordOfMap zero (specLabelMap isZero r) =
      some { r with
        XMLName := none, BaseTime := zeroed isZero zero r.BaseTime,
        Time := zeroed isZero zero r.Time, UpdateTime := zeroed isZero zero r.UpdateTime } ∧
    ((isZero r.BaseTime = true → r.BaseTime = zero) → (isZero r.Time = true → r.Time = zero) →
      (isZero r.UpdateTime = true → r.UpdateTime = zero) → r.XMLName = none →
      specRecordOfMap zero (specLabelMap isZero r) = some r) := by
  refine ⟨?_, specLabelMap_labels isZero r, specRecordOfMap_specLabelMap isZero zero r, ?_⟩
  · intro label item
    unfold specLabelMap
    simp only [List.mem_append, mem_entryIf, mem_optionalEntry, or_assoc]
  · intro h1 h2 h3 h4
    rw [specRecordOfMap_specLabelMap isZero zero r]
    have hz : ∀ x, (isZero x = true → x = zero) → zeroed isZero zero x = x := by
      intro x hx
      unfold zeroed
      by_cases h : isZero x = true
      · simp [h, hx h]
      · simp [h]
    rw [hz _ h1, hz _ h2, hz _ h3, ← h4]

set_option maxRecDepth 100000 in
/-- The theorem `specLabelMap_entries` at the reference pack of the test, with the CBOR bytes
of its label maps: they are the hexadecimal text of the test, this text reads back as the
pack, and the label map of each record gives the record back. -/
theorem specLabelMap_entries_reference :
    hexString (specEncodeCBORBits referencePackBits) = cborHexBytesString ∧
      (hexBytes cborHexBytesString.data).bind specDecodeCBORBits = some referencePackBits ∧
      ∀ r ∈ referencePackBits, specRecordOfMap 0 (specLabelMap isZeroBits r) = some r := by
  refine ⟨by decide, by decide, ?_⟩
  intro r hr
  have h : (isZeroBits r.BaseTime = true → r.BaseTime = 0) ∧
      (isZeroBits r.Time = true → r.Time = 0) ∧
      (isZeroBits r.UpdateTime = true → r.UpdateTime = 0) ∧ r.XMLName = none := by
    revert r
    decide
  exact (specLabelMap_entries isZeroBits 0 r).2.2.2 h.1 h.2.1 h.2.2.1 h.2.2.2

theorem all_entryIf {F : Type} (c : Prop) [Decidable c] (k : String) (v : Item F)
    (h : k ∈ fieldTags) :
    (if c then [(k, v)] else []).all (fun e => decide (e.1 ∈ fieldTags)) = true := by
  by_cases hc : c <;> simp [hc, h]

theorem all_optionalEntry {F : Type} (k : String) (o : Option (Item F)) (h : k ∈ fieldTags) :
    (optionalEntry k o).all (fun e => decide (e.1 ∈ fieldTags)) = true := by
  cases o <;> simp [optionalEntry, h]

/-- Every key in the map that `Encode` hands to a binary format is the name of a `json` tag of
`Record`. -/
theorem taggedMap_keys {F : Type} (isZero : F → Bool) (r : Record F) :
    (taggedMap isZero r).all (fun e => decide (e.1 ∈ fieldTags)) = true := by
  unfold taggedMap
  simp only [List.all_append, Bool.and_eq_true]
  refine ⟨⟨⟨⟨⟨⟨⟨⟨⟨⟨⟨⟨⟨?_, ?_⟩, ?_⟩, ?_⟩, ?_⟩, ?_⟩, ?_⟩, ?_⟩, ?_⟩, ?_⟩, ?_⟩, ?_⟩, ?_⟩, ?_⟩
  all_goals first
    | exact all_entryIf _ _ _ (by decide)
    | exact all_optionalEntry _ _ (by decide)

set_option maxRecDepth 100000 in
/-- C18, the code at the failing input: for CBOR and for MessagePack `Encode` hands to the
codec the maps of the records keyed by the names of the `json` tags of `Record`, not by integer
labels. Every key of such a map is one of these names. For the records room, data and ok of
the reference pack of the test the maps have the keys n, t, vs, then n, vd, then n, vb, where
the claim has the labels 0, 6, 3, then 0, 8, then 0, 4; and for the whole reference pack the
keys bn, bt, bu, bver, n, u, t, ut, v, s in the first record, where the hexadecimal text of the
test is the CBOR of the maps with the labels -2, -3, -4, -1, 0, 1, 6, 7, 2, 5. -/
theorem Encode_binary_keys_are_tags :
    (∀ (F : Type) (isZero : F → Bool) (r : Record F),
      (taggedMap isZero r).all (fun e => decide (e.1 ∈ fieldTags)) = true) ∧
    (∀ (codecs : Codecs Int) (o : OutputOptions),
      Encode wholeFloat64 codecs 0 referenceTail CBOR o =
          (match codecs.cborEncode
              [[("n", .text "room"), ("t", .float (-1)), ("vs", .text "kitchen")],
               [("n", .text "data"), ("vd", .text "abc")],
               [("n", .text "ok"), ("vb", .bool true)]] with
            | .error err => .error ("error encoding CBOR: " ++ err)
            | .ok data => .ok data) ∧
        Encode wholeFloat64 codecs 0 referenceTail MPACK o =
          (match codecs.mpackEncode
              [[("n", .text "room"), ("t", .float (-1)), ("vs", .text "kitchen")],
               [("n", .text "data"), ("vd", .text "abc")],
               [("n", .text "ok"), ("vb", .bool true)]] with
            | .error err => .error ("error encoding MPACK: " ++ err)
            | .ok data => .ok data)) ∧
    referenceTail.map (specLabelMap wholeFloat64.isZero) =
      [[(0, .text "room"), (6, .float (-1)), (3, .text "kitchen")],
       [(0, .text "data"), (8, .text "abc")],
       [(0, .text "ok"), (4, .bool true)]] ∧
    referencePackBits.map (fun r => (taggedMap isZeroBits r).map (·.1)) =
      [["bn", "bt", "bu", "bver", "n", "u", "t", "ut", "v", "s"],
       ["n", "t", "vs"], ["n", "vd"], ["n", "vb"]] ∧
    referencePackBits.map (fun r => (specLabelMap isZeroBits r).map (·.1)) =
      [[-2, -3, -4, -1, 0, 1, 6, 7, 2, 5], [0, 6, 3], [0, 8], [0, 4]] ∧
    hexString (cborPack (referencePackBits.map (specLabelMap isZeroBits))) =
      cborHexBytesString := by
  refine ⟨fun _ => taggedMap_keys, ?_, by decide, by decide, by decide, by decide⟩
  intro codecs o
  exact ⟨rfl, rfl⟩

end Senml
